import Mathlib

/-!
Verification of the hearing-scheduling core of the justicegraph repository.

Shallow embedding of:
  - src/optimization/scheduler.py        (HearingScheduler: heuristic and optimized paths)
  - src/optimization/constraint_builder.py (ConstraintBuilder and its validator)
  - src/optimization/optimization_utils.py (calculate_efficiency)

Modelling conventions:
  - A Python `date` is a day number (Nat).  Day 0 is a Monday, so
    `d.weekday() >= 5` becomes `d % 7 >= 5`, matching Python's
    Monday=0 .. Sunday=6 convention for any epoch that is a Monday.
  - A pandas DataFrame built by the caller (cases_df, judges_df) is modelled as a
    typed list of rows whose schema columns are present even when there are no rows.
    A DataFrame built by the library itself from a Python list of dicts
    (`pd.DataFrame(schedule)`, scheduler.py line 145) has NO columns when the list is
    empty; `ScheduleFrame` records that, and column access on it is fallible
    (a KeyError), exactly as in pandas.
  - Python float is modelled as Rat.  `priority_score` comparisons are modelled on Int.
  - `cases_df.sort_values(priority_score, ascending=False)` (scheduler.py line 86):
    pandas nargsort computes an ascending argsort and reverses the whole indexer for
    a descending sort, so the processing order is (stable ascending sort).reverse.
    The stable ascending kernel models numpy's insertion-sort path, which is what
    argsort executes on small inputs; the reversal step is unconditional in pandas.
  - The counter dictionaries `daily_hearings` / `judge_daily_hearings`
    (scheduler.py lines 92-97) are modelled as total functions initialized to 0;
    the Python code pre-populates exactly the keys it later reads.
  - Logging is a side effect; the `logger.warning` of scheduler.py line 143 is the
    only log statement any claim depends on, and it is kept as the `warnings` field.
  - The OR-Tools CP-SAT solve itself is an external dependency; it is modelled as an
    oracle (`SolveOutcome`): a status plus the 0/1 value of each decision variable.
    The model construction, the status dispatch of lines 169-171/235/260-263 and the
    schedule extraction of lines 239-254 are embedded faithfully.
-/

/-- A row of `cases_df` as consumed by the scheduler: the columns it reads.
`case_number` is the display string; `priority_score` is compared and copied only. -/
structure CaseRow where
  case_id : Nat
  case_number : String
  priority_score : Int
deriving DecidableEq

/-- A row of `judges_df` as consumed by the scheduler. -/
structure JudgeRow where
  judge_id : Nat
  judge_name : String
deriving DecidableEq

/-- One scheduled hearing: the dict appended at scheduler.py lines 123-131. -/
structure Assignment where
  case_id : Nat
  case_number : String
  judge_id : Nat
  judge_name : String
  hearing_date : Nat
  priority_score : Int
  estimated_duration_hours : Rat
deriving DecidableEq

/-- `HearingScheduler.__init__` state (scheduler.py lines 37-61).  The constructor
stores its arguments and performs no validation whatsoever.  The two capacity
limits and the working hours are Python ints (defaults 20, 15, 6), modelled as Nat;
the average duration is a Python float, modelled as Rat so that non-positive
values are representable. -/
structure HearingScheduler where
  max_hearings_per_day : Nat
  max_hearings_per_judge : Nat
  working_hours_per_day : Nat
  avg_hearing_duration : Rat
deriving DecidableEq

/-- Translation of `HearingScheduler.__init__`: it only stores the four fields
(scheduler.py lines 53-56); there is no check on any argument. -/
def hearingSchedulerInit (max_hearings_per_day max_hearings_per_judge
    working_hours_per_day : Nat) (avg_hearing_duration_hours : Rat) : HearingScheduler :=
  { max_hearings_per_day := max_hearings_per_day
    max_hearings_per_judge := max_hearings_per_judge
    working_hours_per_day := working_hours_per_day
    avg_hearing_duration := avg_hearing_duration_hours }

/-- The scheduler with all defaults (scheduler.py lines 39-42). -/
def defaultScheduler : HearingScheduler := hearingSchedulerInit 20 15 6 (1/2)

/-- Generic stable insertion into a list: the new element is placed before the first
element that is not strictly below it.  This is the insertion step of an insertion
sort, which is stable when used by `sortList`. -/
def insertSorted (lt : α → α → Bool) (c : α) : List α → List α
  | [] => [c]
  | x :: xs => if lt x c then x :: insertSorted lt c xs else c :: x :: xs

/-- Stable insertion sort (ascending w.r.t. `lt`). -/
def sortList (lt : α → α → Bool) : List α → List α
  | [] => []
  | c :: cs => insertSorted lt c (sortList lt cs)

/-- Strict comparison of two case rows by priority score. -/
def caseLt (a b : CaseRow) : Bool := decide (a.priority_score < b.priority_score)

/-- `cases_df.sort_values(priority_score, ascending=False)` (scheduler.py line 86):
pandas performs an ascending argsort and then reverses the indexer, so the
descending order is the reverse of a stable ascending sort. -/
def sortByPriorityDesc (cases : List CaseRow) : List CaseRow :=
  (sortList caseLt cases).reverse

/-- The two mutable counter dictionaries of scheduler.py lines 92-97, as total
functions (all keys the code reads are initialized to 0). -/
structure Counters where
  daily : Nat → Nat
  judgeDaily : Nat × Nat → Nat

/-- Fresh counters: every count is 0. -/
def initCounters : Counters := { daily := fun _ => 0, judgeDaily := fun _ => 0 }

/-- `daily_hearings[hearing_date] += 1; judge_daily_hearings[judge_key] += 1`
(scheduler.py lines 134-135). -/
def bumpCounters (s : Counters) (d : Nat) (j : JudgeRow) : Counters :=
  { daily := fun d2 => if d2 = d then s.daily d + 1 else s.daily d2
    judgeDaily := fun k => if k = (j.judge_id, d) then s.judgeDaily (j.judge_id, d) + 1
      else s.judgeDaily k }

/-- Inner judge loop (scheduler.py lines 116-137): scan `judges_df` rows in order
and pick the first judge whose per-day count is below the limit. -/
def findJudge (cfg : HearingScheduler) (judgeDaily : Nat × Nat → Nat) (hearing_date : Nat) :
    List JudgeRow → Option JudgeRow
  | [] => none
  | j :: rest =>
    if judgeDaily (j.judge_id, hearing_date) < cfg.max_hearings_per_judge then some j
    else findJudge cfg judgeDaily hearing_date rest

/-- Day loop for a single case (scheduler.py lines 104-140): scan the day offsets in
order; skip weekends; skip full days; on the first day with a free judge return that
(date, judge) slot. -/
def findSlot (cfg : HearingScheduler) (s : Counters) (judges : List JudgeRow)
    (start_date : Nat) : List Nat → Option (Nat × JudgeRow)
  | [] => none
  | off :: rest =>
    if (start_date + off) % 7 ≥ 5 then findSlot cfg s judges start_date rest
    else if s.daily (start_date + off) ≥ cfg.max_hearings_per_day then
      findSlot cfg s judges start_date rest
    else
      match findJudge cfg s.judgeDaily (start_date + off) judges with
      | some j => some (start_date + off, j)
      | none => findSlot cfg s judges start_date rest

/-- The dict appended to `schedule` at scheduler.py lines 123-131. -/
def mkAssignment (cfg : HearingScheduler) (c : CaseRow) (j : JudgeRow)
    (hearing_date : Nat) : Assignment :=
  { case_id := c.case_id
    case_number := c.case_number
    judge_id := j.judge_id
    judge_name := j.judge_name
    hearing_date := hearing_date
    priority_score := c.priority_score
    estimated_duration_hours := cfg.avg_hearing_duration }

/-- The message of `logger.warning` at scheduler.py line 143. -/
def warnMsg (c : CaseRow) : String := "Could not schedule case " ++ c.case_number

/-- The running state of `schedule_hearings_heuristic`: the counters, the `schedule`
list under construction, and the warning log. -/
structure SchedState where
  counters : Counters
  schedule : List Assignment
  warnings : List String

/-- Processing of one `case_row` of the outer loop (scheduler.py lines 100-143). -/
def scheduleCase (cfg : HearingScheduler) (judges : List JudgeRow)
    (start_date num_days : Nat) (st : SchedState) (c : CaseRow) : SchedState :=
  match findSlot cfg st.counters judges start_date (List.range num_days) with
  | some (d, j) =>
    { counters := bumpCounters st.counters d j
      schedule := st.schedule ++ [mkAssignment cfg c j d]
      warnings := st.warnings }
  | none =>
    { counters := st.counters
      schedule := st.schedule
      warnings := st.warnings ++ [warnMsg c] }

/-- `HearingScheduler.schedule_hearings_heuristic` (scheduler.py lines 63-148):
sort the cases by priority descending and greedily place each one.  The returned
state carries the `schedule` rows (out of which `pd.DataFrame(schedule)` is built)
and the warning log. -/
def schedule_hearings_heuristic (cfg : HearingScheduler) (cases_df : List CaseRow)
    (judges_df : List JudgeRow) (start_date num_days : Nat) : SchedState :=
  List.foldl (scheduleCase cfg judges_df start_date num_days)
    { counters := initCounters, schedule := [], warnings := [] }
    (sortByPriorityDesc cases_df)

/-- `pd.DataFrame(schedule)` (scheduler.py line 145): a frame built from a list of
dicts.  When the list is empty the frame has no columns at all. -/
structure ScheduleFrame where
  rows : List Assignment
deriving DecidableEq

/-- The schedule DataFrame returned by `schedule_hearings_heuristic`. -/
def heuristic_schedule_df (cfg : HearingScheduler) (cases_df : List CaseRow)
    (judges_df : List JudgeRow) (start_date num_days : Nat) : ScheduleFrame :=
  { rows := (schedule_hearings_heuristic cfg cases_df judges_df start_date num_days).schedule }

/-- Whether the frame has its schema columns: `pd.DataFrame(list_of_dicts)` has
columns exactly when the list is nonempty. -/
def ScheduleFrame.hasCols (f : ScheduleFrame) : Bool := !f.rows.isEmpty

/-- The pandas KeyError raised when a missing column is accessed. -/
def keyError (name : String) : String := "KeyError: " ++ name

/-- Column access on a library-built frame: raises KeyError when the frame was built
from an empty record list and therefore has no columns. -/
def ScheduleFrame.colNat (f : ScheduleFrame) (name : String) (proj : Assignment → Nat) :
    Except String (List Nat) :=
  if f.rows.isEmpty then Except.error (keyError name) else Except.ok (f.rows.map proj)

/-- Number of hearings of the schedule list on one date (the size of that date's
groupby group). -/
def countD (l : List Assignment) (d : Nat) : Nat :=
  l.countP (fun a => a.hearing_date == d)

/-- Number of hearings of the schedule list for one (judge_id, date) pair. -/
def countJD (l : List Assignment) (j d : Nat) : Nat :=
  l.countP (fun a => a.judge_id == j && a.hearing_date == d)

/-- Number of assignments of the schedule list carrying one case id. -/
def countId (l : List Assignment) (i : Nat) : Nat :=
  l.countP (fun a => a.case_id == i)

/-- CP-SAT solver status values relevant to scheduler.py line 235. -/
inductive CpStatus
  | optimal
  | feasible
  | infeasible
  | model_invalid
  | unknown
deriving DecidableEq

/-- Oracle for `solver.Solve(model)`: the reported status together with the solved
0/1 value of each decision variable `case_assignments[(c, j, d)]`
(`solver.Value(...) == 1` becomes `value c j d = true`). -/
structure SolveOutcome where
  status : CpStatus
  value : Nat → Nat → Nat → Bool

/-- Number of days `d < nd` on which `value c j d` holds for one (case, judge) pair. -/
def dayHits (value : Nat → Nat → Nat → Bool) (nd c j : Nat) : Nat :=
  ((List.range nd).filter (fun d => value c j d)).length

/-- Total number of (judge, day) slots assigned to case index `c` over the judge rows
starting at judge index `jFrom`: the sum constrained to equal 1 by Constraint 1 of
scheduler.py lines 191-197. -/
def totalAssign (value : Nat → Nat → Nat → Bool) (nd c : Nat) :
    Nat → List JudgeRow → Nat
  | _, [] => 0
  | jFrom, _ :: rest => dayHits value nd c jFrom + totalAssign value nd c (jFrom + 1) rest

/-- Extraction rows contributed by one case index `c` scanning judges from index
`jFrom` (the two inner loops of scheduler.py lines 241-254). -/
def extractJudgeRows (cfg : HearingScheduler) (value : Nat → Nat → Nat → Bool)
    (start_date nd : Nat) (c : Nat) (caseRow : CaseRow) :
    Nat → List JudgeRow → List Assignment
  | _, [] => []
  | jFrom, judgeRow :: rest =>
    ((List.range nd).filterMap (fun d =>
      if value c jFrom d then some (mkAssignment cfg caseRow judgeRow (start_date + d))
      else none))
      ++ extractJudgeRows cfg value start_date nd c caseRow (jFrom + 1) rest

/-- Extraction rows of the outer case loop of scheduler.py lines 240-254, with `c`
the index of the first case row of `cases`. -/
def extractRows (cfg : HearingScheduler) (value : Nat → Nat → Nat → Bool)
    (judges : List JudgeRow) (start_date nd : Nat) :
    Nat → List CaseRow → List Assignment
  | _, [] => []
  | c, caseRow :: rest =>
    extractJudgeRows cfg value start_date nd c caseRow 0 judges
      ++ extractRows cfg value judges start_date nd (c + 1) rest

/-- The schedule extracted from a solver solution (scheduler.py lines 239-256):
triple loop over case index, judge index and day, emitting a row whenever the
decision variable is 1. -/
def extractSchedule (cfg : HearingScheduler) (cases : List CaseRow)
    (judges : List JudgeRow) (start_date nd : Nat)
    (value : Nat → Nat → Nat → Bool) : List Assignment :=
  extractRows cfg value judges start_date nd 0 cases

/-- `HearingScheduler.schedule_hearings_optimized` (scheduler.py lines 150-263).
`ortools_available` models the module-level ORTOOLS_AVAILABLE flag; `solve` is the
solver oracle.  When OR-Tools is missing (lines 169-171), or the status is neither
OPTIMAL nor FEASIBLE (lines 260-263), the call delegates to the heuristic on the
very same arguments; otherwise the solution is extracted (lines 235-258).
The function is total: no path raises. -/
def schedule_hearings_optimized (ortools_available : Bool) (solve : SolveOutcome)
    (cfg : HearingScheduler) (cases_df : List CaseRow) (judges_df : List JudgeRow)
    (start_date num_days : Nat) : List Assignment :=
  if !ortools_available then
    (schedule_hearings_heuristic cfg cases_df judges_df start_date num_days).schedule
  else
    match solve.status with
    | CpStatus.optimal =>
      extractSchedule cfg cases_df judges_df start_date num_days solve.value
    | CpStatus.feasible =>
      extractSchedule cfg cases_df judges_df start_date num_days solve.value
    | _ =>
      (schedule_hearings_heuristic cfg cases_df judges_df start_date num_days).schedule

/-- The constraint dicts produced by the ConstraintBuilder add_* methods
(constraint_builder.py lines 27-218).  Each variant carries exactly the data fields
the validator reads; the human-readable description string is derivable from those
fields and is only used for export/logging, so it is omitted. -/
inductive Constraint
  | max_hearings_per_day (value : Nat)
  | max_hearings_per_judge (value : Nat)
  | priority_deadline (priority_threshold : Int) (max_days : Nat)
  | minimum_gap (case_type : String) (min_days : Nat)
  | working_hours_limit (max_hours avg_duration : Rat) (max_hearings_derived : Int)
  | judge_specialization (judge_id : Nat) (case_types : List String)
  | no_weekends
  | holiday_exclusion (holidays : List Nat)
  | balanced_workload (tolerance : Rat)
deriving DecidableEq

/-- `ConstraintBuilder()` starts with an empty constraint list
(constraint_builder.py line 24). -/
def constraintBuilderInit : List Constraint := []

/-- `add_max_hearings_per_day` (constraint_builder.py lines 27-44). -/
def add_max_hearings_per_day (b : List Constraint) (max_hearings : Nat) : List Constraint :=
  b ++ [Constraint.max_hearings_per_day max_hearings]

/-- `add_max_hearings_per_judge` (constraint_builder.py lines 46-63). -/
def add_max_hearings_per_judge (b : List Constraint) (max_hearings : Nat) : List Constraint :=
  b ++ [Constraint.max_hearings_per_judge max_hearings]

/-- `add_priority_deadline` (constraint_builder.py lines 65-88). -/
def add_priority_deadline (b : List Constraint) (priority_threshold : Int)
    (max_days : Nat) : List Constraint :=
  b ++ [Constraint.priority_deadline priority_threshold max_days]

/-- `add_minimum_gap_between_hearings` (constraint_builder.py lines 90-113). -/
def add_minimum_gap_between_hearings (b : List Constraint) (case_type : String)
    (min_days : Nat) : List Constraint :=
  b ++ [Constraint.minimum_gap case_type min_days]

/-- Python `int(x)` truncates a float toward zero. -/
def pyIntOfRat (q : Rat) : Int := if 0 ≤ q then q.floor else -((-q).floor)

/-- `add_working_hours_limit` (constraint_builder.py lines 115-140): it computes
`int(max_hours / avg_hearing_duration)` with no guard, so a zero duration raises
ZeroDivisionError and a negative duration silently yields a negative capacity. -/
def add_working_hours_limit (b : List Constraint) (max_hours avg_hearing_duration : Rat) :
    Except String (List Constraint) :=
  if avg_hearing_duration = 0 then Except.error "ZeroDivisionError"
  else Except.ok (b ++ [Constraint.working_hours_limit max_hours avg_hearing_duration
    (pyIntOfRat (max_hours / avg_hearing_duration))])

/-- `add_judge_specialization` (constraint_builder.py lines 142-165). -/
def add_judge_specialization (b : List Constraint) (judge_id : Nat)
    (case_types : List String) : List Constraint :=
  b ++ [Constraint.judge_specialization judge_id case_types]

/-- `add_no_weekend_scheduling` (constraint_builder.py lines 167-180). -/
def add_no_weekend_scheduling (b : List Constraint) : List Constraint :=
  b ++ [Constraint.no_weekends]

/-- `add_holiday_exclusion` (constraint_builder.py lines 182-199). -/
def add_holiday_exclusion (b : List Constraint) (holidays : List Nat) : List Constraint :=
  b ++ [Constraint.holiday_exclusion holidays]

/-- `add_balanced_workload` (constraint_builder.py lines 201-218). -/
def add_balanced_workload (b : List Constraint) (tolerance : Rat) : List Constraint :=
  b ++ [Constraint.balanced_workload tolerance]

/-- Strict lexicographic comparison of (judge_id, date) keys, the sort order of the
pandas MultiIndex produced by `groupby([judge_id, hearing_date])`. -/
def pairLt (a b : Nat × Nat) : Bool := a.1 < b.1 || (a.1 == b.1 && a.2 < b.2)

/-- `schedule_df.groupby(hearing_date).size()` on the rows of a nonempty frame:
sorted distinct dates, each with its group size. -/
def groupSizesByDate (rows : List Assignment) : List (Nat × Nat) :=
  (sortList (fun a b => decide (a < b)) (rows.map (fun a => a.hearing_date)).dedup).map
    (fun d => (d, countD rows d))

/-- `schedule_df.groupby([judge_id, hearing_date]).size()` on the rows of a nonempty
frame: sorted distinct (judge, date) keys, each with its group size. -/
def groupSizesByJudgeDate (rows : List Assignment) : List ((Nat × Nat) × Nat) :=
  (sortList pairLt (rows.map (fun a => (a.judge_id, a.hearing_date))).dedup).map
    (fun k => (k, countJD rows k.1 k.2))

/-- `_validate_max_hearings_per_day` (constraint_builder.py lines 286-303).
The groupby raises KeyError on a column-less (empty) frame. -/
def validateMaxPerDay (f : ScheduleFrame) (max_allowed : Nat) :
    Except String (List String) :=
  if f.rows.isEmpty then Except.error (keyError "hearing_date")
  else Except.ok ((groupSizesByDate f.rows).filterMap (fun g =>
    if max_allowed < g.2 then
      some ("Date " ++ toString g.1 ++ ": " ++ toString g.2
        ++ " hearings exceeds limit of " ++ toString max_allowed)
    else none))

/-- `_validate_max_hearings_per_judge` (constraint_builder.py lines 305-323). -/
def validateMaxPerJudge (f : ScheduleFrame) (max_allowed : Nat) :
    Except String (List String) :=
  if f.rows.isEmpty then Except.error (keyError "judge_id")
  else Except.ok ((groupSizesByJudgeDate f.rows).filterMap (fun g =>
    if max_allowed < g.2 then
      some ("Judge " ++ toString g.1.1 ++ " on " ++ toString g.1.2 ++ ": "
        ++ toString g.2 ++ " hearings exceeds limit of " ++ toString max_allowed)
    else none))

/-- `_validate_priority_deadline` (constraint_builder.py lines 325-350).  The guard
on line 335 returns [] when the priority_score column is missing, so the empty frame
never raises here; `today` models `datetime.now().date()`. -/
def validatePriorityDeadline (f : ScheduleFrame) (threshold : Int) (max_days : Nat)
    (today : Nat) : List String :=
  if !f.hasCols then []
  else (f.rows.filter (fun a => threshold ≤ a.priority_score)).filterMap (fun a =>
    if today + max_days < a.hearing_date then
      some ("Case " ++ a.case_number ++ ": Priority " ++ toString a.priority_score
        ++ " scheduled beyond " ++ toString max_days ++ "-day deadline")
    else none)

/-- `_validate_no_weekends` (constraint_builder.py lines 352-362): iterrows on an
empty frame is empty, so no column is touched. -/
def validateNoWeekends (f : ScheduleFrame) : List String :=
  f.rows.filterMap (fun a =>
    if a.hearing_date % 7 ≥ 5 then
      some ("Case " ++ a.case_number ++ " scheduled on weekend: " ++ toString a.hearing_date)
    else none)

/-- `_validate_holiday_exclusion` (constraint_builder.py lines 364-379). -/
def validateHolidayExclusion (f : ScheduleFrame) (holidays : List Nat) : List String :=
  f.rows.filterMap (fun a =>
    if a.hearing_date ∈ holidays then
      some ("Case " ++ a.case_number ++ " scheduled on holiday: " ++ toString a.hearing_date)
    else none)

/-- The dispatch of `validate_schedule` on one constraint (constraint_builder.py
lines 247-273): only five kinds are checked; every other kind falls through the
if/elif chain and contributes nothing. -/
def violationsFor (c : Constraint) (f : ScheduleFrame) (today : Nat) :
    Except String (List String) :=
  match c with
  | Constraint.max_hearings_per_day v => validateMaxPerDay f v
  | Constraint.max_hearings_per_judge v => validateMaxPerJudge f v
  | Constraint.priority_deadline t m => Except.ok (validatePriorityDeadline f t m today)
  | Constraint.no_weekends => Except.ok (validateNoWeekends f)
  | Constraint.holiday_exclusion hs => Except.ok (validateHolidayExclusion f hs)
  | _ => Except.ok []

/-- The accumulation loop of `validate_schedule` (constraint_builder.py lines
245-273): violations are concatenated in constraint order; a raise propagates. -/
def collectViolations (cs : List Constraint) (f : ScheduleFrame) (today : Nat) :
    Except String (List String) :=
  match cs with
  | [] => Except.ok []
  | c :: rest => do
    let v ← violationsFor c f today
    let vs ← collectViolations rest f today
    Except.ok (v ++ vs)

/-- `ConstraintBuilder.validate_schedule` (constraint_builder.py lines 229-284):
returns `(is_valid, violations)` with `is_valid = (len(violations) == 0)`.
The `judges_df` argument is accepted and never read, as in the source. -/
def validate_schedule (constraints : List Constraint) (schedule_df : ScheduleFrame)
    (judges_df : List JudgeRow) (today : Nat) : Except String (Bool × List String) := do
  let violations ← collectViolations constraints schedule_df today
  Except.ok (violations.length == 0, violations)

/-- The constraint kinds that `validate_schedule` silently skips: they appear in no
branch of the if/elif dispatch of constraint_builder.py lines 250-273. -/
def skippedKind : Constraint → Bool
  | Constraint.minimum_gap _ _ => true
  | Constraint.judge_specialization _ _ => true
  | Constraint.working_hours_limit _ _ _ => true
  | Constraint.balanced_workload _ => true
  | _ => false

/-- Round-half-to-even of a rational to an integer, Python's `round` tie rule. -/
def roundHalfEven (r : Rat) : Int :=
  if r - (r.floor : Rat) < 1/2 then r.floor
  else if (1/2 : Rat) < r - (r.floor : Rat) then r.floor + 1
  else if r.floor % 2 = 0 then r.floor else r.floor + 1

/-- Python `round(x, 2)` on the exact rational value of x. -/
def pyRound2 (q : Rat) : Rat := (roundHalfEven (q * 100) : Rat) / 100

/-- `series.nunique()`: the number of distinct values. -/
def nunique (l : List Nat) : Nat := l.dedup.length

/-- Arithmetic mean of a list of integers as an exact rational (callers guard
against the empty list exactly where the Python code does). -/
def intMean (l : List Int) : Rat := (l.sum : Rat) / (l.length : Rat)

/-- Arithmetic mean of a list of naturals as an exact rational. -/
def natMean (l : List Nat) : Rat := ((l.sum : Int) : Rat) / (l.length : Rat)

/-- `schedule_df.groupby(judge_id).size()`: sorted distinct judge ids with their
hearing counts. -/
def groupSizesByJudge (rows : List Assignment) : List (Nat × Nat) :=
  (sortList (fun a b => decide (a < b)) (rows.map (fun a => a.judge_id)).dedup).map
    (fun j => (j, rows.countP (fun a => a.judge_id == j)))

/-- `schedule_df.groupby(case_id)[hearing_date].min()`: for each distinct case id in
key order, the earliest hearing date (every group is nonempty, so the default of
`min?.getD` is never used). -/
def earliestHearingDates (rows : List Assignment) : List Nat :=
  (sortList (fun a b => decide (a < b)) (rows.map (fun a => a.case_id)).dedup).map
    (fun i => (((rows.filter (fun a => a.case_id == i)).map
      (fun a => a.hearing_date)).min?).getD 0)

/-- `calculate_efficiency` (optimization_utils.py lines 91-158).  `seriesStd` is the
pandas sample standard deviation routine, abstracted as an oracle because its value
is irrational in general; `today` models `datetime.now().date()`.  The metrics dict
is the ordered association list of the keys inserted.  Every column access on
`schedule_df` goes through the frame's (possibly missing) columns, and the
caller-supplied `cases_df` is a typed table whose priority_score column exists. -/
def calculate_efficiency (seriesStd : List Nat → Rat) (schedule_df : ScheduleFrame)
    (cases_df : List CaseRow) (judges_df : List JudgeRow) (today : Nat) :
    Except String (List (String × Rat)) := do
  let total_cases := cases_df.length
  let caseCol ← schedule_df.colNat "case_id" (fun a => a.case_id)
  let scheduled_cases := nunique caseCol
  let coverage_rate : Rat :=
    if 0 < total_cases then pyRound2 ((scheduled_cases : Rat) / (total_cases : Rat) * 100)
    else 0
  let total_judges := judges_df.length
  let judgeCol ← schedule_df.colNat "judge_id" (fun a => a.judge_id)
  let judges_assigned := nunique judgeCol
  let judge_utilization : Rat :=
    if 0 < total_judges then pyRound2 ((judges_assigned : Rat) / (total_judges : Rat) * 100)
    else 0
  let dateCol ← schedule_df.colNat "hearing_date" (fun a => a.hearing_date)
  let days_scheduled := nunique dateCol
  let avg_hearings_per_day : Rat :=
    if 0 < days_scheduled then
      pyRound2 ((schedule_df.rows.length : Rat) / (days_scheduled : Rat))
    else 0
  let hearings_per_judge := groupSizesByJudge schedule_df.rows
  let workload_std_dev : Rat :=
    if 0 < hearings_per_judge.length then pyRound2 (seriesStd (hearings_per_judge.map Prod.snd))
    else 0
  let avg_hearings_per_judge : Rat :=
    if 0 < hearings_per_judge.length then pyRound2 (natMean (hearings_per_judge.map Prod.snd))
    else 0
  let priorityMetrics : List (String × Rat) :=
    if schedule_df.hasCols then
      let avg_priority := pyRound2 (intMean (schedule_df.rows.map (fun a => a.priority_score)))
      let high_priority_scheduled :=
        (schedule_df.rows.filter (fun a => 70 ≤ a.priority_score)).length
      let high_priority_total := (cases_df.filter (fun c => 70 ≤ c.priority_score)).length
      if 0 < high_priority_total then
        [("avg_priority_scheduled", avg_priority),
         ("high_priority_coverage",
          pyRound2 ((high_priority_scheduled : Rat) / (high_priority_total : Rat) * 100))]
      else [("avg_priority_scheduled", avg_priority)]
    else []
  let timeMetrics : List (String × Rat) :=
    if schedule_df.hasCols then
      let days_to_hearing := (earliestHearingDates schedule_df.rows).map
        (fun h => (h : Int) - (today : Int))
      [("avg_days_to_hearing",
        if 0 < days_to_hearing.length then pyRound2 (intMean days_to_hearing) else 0)]
    else []
  let densityMetrics : List (String × Rat) :=
    if schedule_df.hasCols && 0 < days_scheduled then
      [("slot_utilization",
        pyRound2 ((schedule_df.rows.length : Rat) / ((days_scheduled * 20 : Nat) : Rat) * 100))]
    else []
  Except.ok ([("coverage_rate", coverage_rate),
    ("judge_utilization", judge_utilization),
    ("avg_hearings_per_day", avg_hearings_per_day),
    ("workload_std_dev", workload_std_dev),
    ("avg_hearings_per_judge", avg_hearings_per_judge)]
    ++ priorityMetrics ++ timeMetrics ++ densityMetrics)

/-- One counter-update step of the heuristic.  The counter evolution does not depend
on which case is being placed, only on how many cases were processed before it. -/
def stepCounters (cfg : HearingScheduler) (judges : List JudgeRow)
    (start_date num_days : Nat) (s : Counters) : Counters :=
  match findSlot cfg s judges start_date (List.range num_days) with
  | some (d, j) => bumpCounters s d j
  | none => s

/-- The counters after the first `k` cases of any run have been processed. -/
def countersAt (cfg : HearingScheduler) (judges : List JudgeRow)
    (start_date num_days k : Nat) : Counters :=
  (stepCounters cfg judges start_date num_days)^[k] initCounters

/-- The assignment (if any) produced for a case placed against counter state `s`. -/
def assignOf (cfg : HearingScheduler) (judges : List JudgeRow)
    (start_date num_days : Nat) (s : Counters) (c : CaseRow) : Option Assignment :=
  match findSlot cfg s judges start_date (List.range num_days) with
  | some (d, j) => some (mkAssignment cfg c j d)
  | none => none

/-- The schedule rows produced for the case sequence `cs` when the first of them is
the `m`-th case processed overall. -/
def runSchedule (cfg : HearingScheduler) (judges : List JudgeRow)
    (start_date num_days : Nat) : Nat → List CaseRow → List Assignment
  | _, [] => []
  | m, c :: cs =>
    (assignOf cfg judges start_date num_days
        (countersAt cfg judges start_date num_days m) c).toList
      ++ runSchedule cfg judges start_date num_days (m + 1) cs

/-- Pointwise order on counter states. -/
def CountersLE (s t : Counters) : Prop :=
  (∀ d, s.daily d ≤ t.daily d) ∧ (∀ k, s.judgeDaily k ≤ t.judgeDaily k)

theorem findJudge_some {cfg : HearingScheduler} {jd : Nat × Nat → Nat} {date : Nat}
    {js : List JudgeRow} {j : JudgeRow} (h : findJudge cfg jd date js = some j) :
    j ∈ js ∧ jd (j.judge_id, date) < cfg.max_hearings_per_judge := by
  induction js with
  | nil => simp [findJudge] at h
  | cons x rest ih =>
    by_cases hx : jd (x.judge_id, date) < cfg.max_hearings_per_judge
    · simp [findJudge, hx] at h
      subst h
      exact ⟨List.mem_cons_self x rest, hx⟩
    · simp [findJudge, hx] at h
      rcases ih h with ⟨hm, hlt⟩
      exact ⟨List.mem_cons_of_mem x hm, hlt⟩

theorem findSlot_some {cfg : HearingScheduler} {s : Counters} {judges : List JudgeRow}
    {sd : Nat} {offs : List Nat} {d : Nat} {j : JudgeRow}
    (h : findSlot cfg s judges sd offs = some (d, j)) :
    s.daily d < cfg.max_hearings_per_day
      ∧ s.judgeDaily (j.judge_id, d) < cfg.max_hearings_per_judge
      ∧ j ∈ judges ∧ ∃ off ∈ offs, d = sd + off := by
  induction offs with
  | nil => simp [findSlot] at h
  | cons o rest ih =>
    by_cases hw : (sd + o) % 7 ≥ 5
    · simp only [findSlot, if_pos hw] at h
      rcases ih h with ⟨h1, h2, h3, off, hoff, hd⟩
      exact ⟨h1, h2, h3, off, List.mem_cons_of_mem o hoff, hd⟩
    · by_cases hf : s.daily (sd + o) ≥ cfg.max_hearings_per_day
      · simp only [findSlot, if_neg hw, if_pos hf] at h
        rcases ih h with ⟨h1, h2, h3, off, hoff, hd⟩
        exact ⟨h1, h2, h3, off, List.mem_cons_of_mem o hoff, hd⟩
      · simp only [findSlot, if_neg hw, if_neg hf] at h
        cases hj : findJudge cfg s.judgeDaily (sd + o) judges with
        | some j0 =>
          rw [hj] at h
          simp only [Option.some.injEq, Prod.mk.injEq] at h
          rcases h with ⟨hd, hjj⟩
          subst hd; subst hjj
          rcases findJudge_some hj with ⟨hm, hlt⟩
          exact ⟨Nat.lt_of_not_le hf, hlt, hm, o, List.mem_cons_self o rest, rfl⟩
        | none =>
          rw [hj] at h
          rcases ih h with ⟨h1, h2, h3, off, hoff, hd⟩
          exact ⟨h1, h2, h3, off, List.mem_cons_of_mem o hoff, hd⟩

/-- The capacity invariant carried through the heuristic's outer loop: the counter
dictionaries agree with the counts of the accumulated schedule list, and both
counters are below their limits. -/
def SchedInv (cfg : HearingScheduler) (st : SchedState) : Prop :=
  (∀ jid d, countJD st.schedule jid d = st.counters.judgeDaily (jid, d))
    ∧ (∀ d, countD st.schedule d = st.counters.daily d)
    ∧ (∀ k, st.counters.judgeDaily k ≤ cfg.max_hearings_per_judge)
    ∧ (∀ d, st.counters.daily d ≤ cfg.max_hearings_per_day)

theorem schedInv_init (cfg : HearingScheduler) :
    SchedInv cfg { counters := initCounters, schedule := [], warnings := [] } := by
  refine ⟨?_, ?_, ?_, ?_⟩ <;> intros <;>
    simp [countJD, countD, initCounters, List.countP_nil]

theorem countP_append_singleton {α} (p : α → Bool) (l : List α) (a : α) :
    (l ++ [a]).countP p = l.countP p + if p a then 1 else 0 := by
  rw [List.countP_append]
  simp [List.countP_cons]

theorem schedInv_step {cfg : HearingScheduler} {judges : List JudgeRow}
    {sd nd : Nat} {st : SchedState} (hinv : SchedInv cfg st) (c : CaseRow) :
    SchedInv cfg (scheduleCase cfg judges sd nd st c) := by
  rcases hinv with ⟨hjd, hd, hjb, hdb⟩
  cases hslot : findSlot cfg st.counters judges sd (List.range nd) with
  | none =>
    simp only [scheduleCase, hslot]
    exact ⟨hjd, hd, hjb, hdb⟩
  | some dj =>
    obtain ⟨d, j⟩ := dj
    rcases findSlot_some hslot with ⟨hday, hjudge, _, _⟩
    simp only [scheduleCase, hslot]
    refine ⟨?_, ?_, ?_, ?_⟩
    · intro jid d2
      simp only [countJD, countP_append_singleton, bumpCounters, mkAssignment]
      by_cases hk : (jid, d2) = (j.judge_id, d)
      · rcases Prod.mk.injEq .. ▸ hk with ⟨h1, h2⟩
        subst h1; subst h2
        simp [beq_iff_eq]
        exact hjd j.judge_id d2
      · have : ¬(j.judge_id == jid && (d == d2)) = true := by
          intro hcontra
          simp only [Bool.and_eq_true, beq_iff_eq] at hcontra
          exact hk (by simp [hcontra.1.symm, hcontra.2.symm])
        simp only [this, if_neg, if_false]
        rw [if_neg hk]
        exact (hjd jid d2).trans rfl
    · intro d2
      simp only [countD, countP_append_singleton, bumpCounters, mkAssignment]
      by_cases hk : d2 = d
      · subst hk
        simp [beq_iff_eq]
        exact hd d2
      · have : ¬((d == d2) = true) := by simp [beq_iff_eq]; omega
        simp only [this, if_neg, if_false]
        rw [if_neg hk]
        exact hd d2
    · intro k
      simp only [bumpCounters]
      by_cases hk : k = (j.judge_id, d)
      · rw [if_pos hk]; omega
      · rw [if_neg hk]; exact hjb k
    · intro d2
      simp only [bumpCounters]
      by_cases hk : d2 = d
      · rw [if_pos hk]; omega
      · rw [if_neg hk]; exact hdb d2

theorem schedInv_foldl {cfg : HearingScheduler} {judges : List JudgeRow} {sd nd : Nat} :
    ∀ (cs : List CaseRow) (st : SchedState), SchedInv cfg st →
      SchedInv cfg (List.foldl (scheduleCase cfg judges sd nd) st cs)
  | [], st, h => h
  | c :: cs, st, h =>
    schedInv_foldl cs (scheduleCase cfg judges sd nd st c) (schedInv_step h c)

/-- Shared capacity bound: every (judge, date) count of the heuristic schedule is at
most `max_hearings_per_judge` and every date count at most `max_hearings_per_day`. -/
theorem heuristic_capacity_bounds (cfg : HearingScheduler) (cases : List CaseRow)
    (judges : List JudgeRow) (sd nd : Nat) :
    (∀ jid d, countJD (schedule_hearings_heuristic cfg cases judges sd nd).schedule jid d
        ≤ cfg.max_hearings_per_judge)
      ∧ (∀ d, countD (schedule_hearings_heuristic cfg cases judges sd nd).schedule d
        ≤ cfg.max_hearings_per_day) := by
  have hinv := @schedInv_foldl cfg judges sd nd
    (sortByPriorityDesc cases) _ (schedInv_init cfg)
  rcases hinv with ⟨hjd, hd, hjb, hdb⟩
  constructor
  · intro jid d
    rw [show (schedule_hearings_heuristic cfg cases judges sd nd)
      = List.foldl (scheduleCase cfg judges sd nd)
        { counters := initCounters, schedule := [], warnings := [] }
        (sortByPriorityDesc cases) from rfl]
    rw [hjd jid d]
    exact hjb (jid, d)
  · intro d
    rw [show (schedule_hearings_heuristic cfg cases judges sd nd)
      = List.foldl (scheduleCase cfg judges sd nd)
        { counters := initCounters, schedule := [], warnings := [] }
        (sortByPriorityDesc cases) from rfl]
    rw [hd d]
    exact hdb d

theorem insertSorted_perm (lt : α → α → Bool) (c : α) (l : List α) :
    (insertSorted lt c l).Perm (c :: l) := by
  induction l with
  | nil => simp [insertSorted]
  | cons x xs ih =>
    by_cases h : lt x c
    · simp only [insertSorted, if_pos h]
      exact (List.Perm.cons x ih).trans (List.Perm.swap c x xs)
    · simp [insertSorted, if_neg h]

theorem sortList_perm (lt : α → α → Bool) (l : List α) : (sortList lt l).Perm l := by
  induction l with
  | nil => simp [sortList]
  | cons c cs ih =>
    exact (insertSorted_perm lt c (sortList lt cs)).trans (List.Perm.cons c ih)

theorem sortByPriorityDesc_perm (cases : List CaseRow) :
    (sortByPriorityDesc cases).Perm cases :=
  (List.reverse_perm (sortList caseLt cases)).trans (sortList_perm caseLt cases)

theorem mem_insertSorted {lt : α → α → Bool} {c x : α} {l : List α}
    (h : x ∈ insertSorted lt c l) : x = c ∨ x ∈ l := by
  induction l with
  | nil => simpa [insertSorted] using h
  | cons y ys ih =>
    by_cases hy : lt y c
    · simp only [insertSorted, if_pos hy, List.mem_cons] at h
      rcases h with rfl | h2
      · exact Or.inr (List.mem_cons_self x ys)
      · rcases ih h2 with rfl | h3
        · exact Or.inl rfl
        · exact Or.inr (List.mem_cons_of_mem y h3)
    · simp only [insertSorted, if_neg hy, List.mem_cons] at h
      rcases h with rfl | h2
      · exact Or.inl rfl
      · exact Or.inr (by simpa [List.mem_cons] using h2)

theorem insertSorted_sorted {c : CaseRow} {l : List CaseRow}
    (hl : l.Pairwise (fun a b => a.priority_score ≤ b.priority_score)) :
    (insertSorted caseLt c l).Pairwise (fun a b => a.priority_score ≤ b.priority_score) := by
  induction l with
  | nil => simp [insertSorted]
  | cons x xs ih =>
    rcases List.pairwise_cons.mp hl with ⟨hx, hxs⟩
    by_cases h : caseLt x c
    · simp only [insertSorted, if_pos h]
      refine List.pairwise_cons.mpr ⟨?_, ih hxs⟩
      intro y hy
      rcases mem_insertSorted hy with rfl | hy2
      · exact le_of_lt (by simpa [caseLt] using h)
      · exact hx y hy2
    · simp only [insertSorted, if_neg h]
      have hcx : c.priority_score ≤ x.priority_score := by
        simpa [caseLt, not_lt] using h
      refine List.pairwise_cons.mpr ⟨?_, hl⟩
      intro y hy
      rcases List.mem_cons.mp hy with rfl | hy2
      · exact hcx
      · exact hcx.trans (hx y hy2)

theorem sortList_sorted (l : List CaseRow) :
    (sortList caseLt l).Pairwise (fun a b => a.priority_score ≤ b.priority_score) := by
  induction l with
  | nil => simp [sortList]
  | cons c cs ih => exact insertSorted_sorted ih

theorem sortByPriorityDesc_sorted (cases : List CaseRow) :
    (sortByPriorityDesc cases).Pairwise
      (fun a b => b.priority_score ≤ a.priority_score) := by
  rw [sortByPriorityDesc]
  exact List.pairwise_reverse.mpr (sortList_sorted cases)

theorem filter_insertSorted (c : CaseRow) (l : List CaseRow) (p : Int) :
    (insertSorted caseLt c l).filter (fun x => x.priority_score == p)
      = if c.priority_score == p
        then c :: l.filter (fun x => x.priority_score == p)
        else l.filter (fun x => x.priority_score == p) := by
  induction l with
  | nil =>
    by_cases h : c.priority_score == p <;> simp [insertSorted, h]
  | cons x xs ih =>
    by_cases hlt : caseLt x c
    · simp only [insertSorted, if_pos hlt, List.filter_cons]
      by_cases hc : c.priority_score == p
      · have hcp : c.priority_score = p := by simpa using hc
        have hx : (x.priority_score == p) = false := by
          have hxc : x.priority_score < c.priority_score := by simpa [caseLt] using hlt
          simp only [beq_eq_false_iff_ne, ne_eq]
          omega
        simp [hx, ih, hc]
      · by_cases hx : x.priority_score == p <;> simp [hx, ih, hc]
    · by_cases hc : c.priority_score == p <;>
        simp [insertSorted, if_neg hlt, List.filter_cons, hc]

theorem filter_sortList (l : List CaseRow) (p : Int) :
    (sortList caseLt l).filter (fun x => x.priority_score == p)
      = l.filter (fun x => x.priority_score == p) := by
  induction l with
  | nil => simp [sortList]
  | cons c cs ih =>
    by_cases hc : c.priority_score == p <;>
      simp [sortList, filter_insertSorted, ih, List.filter_cons, hc]

/-- Tie behavior of the source's descending sort: the cases with any fixed priority
score appear in the REVERSE of their input order. -/
theorem filter_sortByPriorityDesc (l : List CaseRow) (p : Int) :
    (sortByPriorityDesc l).filter (fun x => x.priority_score == p)
      = (l.filter (fun x => x.priority_score == p)).reverse := by
  rw [sortByPriorityDesc, List.filter_reverse, filter_sortList]

theorem scheduleCase_counters (cfg : HearingScheduler) (judges : List JudgeRow)
    (sd nd : Nat) (st : SchedState) (c : CaseRow) :
    (scheduleCase cfg judges sd nd st c).counters
      = stepCounters cfg judges sd nd st.counters := by
  cases hslot : findSlot cfg st.counters judges sd (List.range nd) with
  | none => simp [scheduleCase, stepCounters, hslot]
  | some dj => obtain ⟨d, j⟩ := dj; simp [scheduleCase, stepCounters, hslot]

theorem foldl_schedule (cfg : HearingScheduler) (judges : List JudgeRow) (sd nd : Nat) :
    ∀ (cs : List CaseRow) (m : Nat) (acc : List Assignment) (w : List String),
      (List.foldl (scheduleCase cfg judges sd nd)
          { counters := countersAt cfg judges sd nd m, schedule := acc, warnings := w }
          cs).schedule
        = acc ++ runSchedule cfg judges sd nd m cs
  | [], m, acc, w => by simp [runSchedule]
  | c :: cs, m, acc, w => by
    have hstep : countersAt cfg judges sd nd (m + 1)
        = stepCounters cfg judges sd nd (countersAt cfg judges sd nd m) :=
      Function.iterate_succ_apply' (stepCounters cfg judges sd nd) m initCounters
    cases hslot : findSlot cfg (countersAt cfg judges sd nd m) judges sd
        (List.range nd) with
    | some dj =>
      obtain ⟨d, j⟩ := dj
      have hbump : bumpCounters (countersAt cfg judges sd nd m) d j
          = countersAt cfg judges sd nd (m + 1) := by
        rw [hstep]; simp [stepCounters, hslot]
      simp only [List.foldl_cons, scheduleCase, hslot, hbump]
      rw [foldl_schedule cfg judges sd nd cs (m + 1) (acc ++ [mkAssignment cfg c j d]) w]
      simp [runSchedule, assignOf, hslot]
    | none =>
      have hsame : countersAt cfg judges sd nd (m + 1) = countersAt cfg judges sd nd m := by
        rw [hstep]; simp [stepCounters, hslot]
      simp only [List.foldl_cons, scheduleCase, hslot]
      rw [← hsame]
      rw [foldl_schedule cfg judges sd nd cs (m + 1) acc (w ++ [warnMsg c])]
      simp [runSchedule, assignOf, hslot]

theorem heuristic_schedule_eq (cfg : HearingScheduler) (cases : List CaseRow)
    (judges : List JudgeRow) (sd nd : Nat) :
    (schedule_hearings_heuristic cfg cases judges sd nd).schedule
      = runSchedule cfg judges sd nd 0 (sortByPriorityDesc cases) := by
  have h0 : countersAt cfg judges sd nd 0 = initCounters := rfl
  have := foldl_schedule cfg judges sd nd (sortByPriorityDesc cases) 0 [] []
  rw [h0] at this
  simpa [schedule_hearings_heuristic] using this

theorem runSchedule_append (cfg : HearingScheduler) (judges : List JudgeRow)
    (sd nd : Nat) :
    ∀ (xs ys : List CaseRow) (m : Nat),
      runSchedule cfg judges sd nd m (xs ++ ys)
        = runSchedule cfg judges sd nd m xs
          ++ runSchedule cfg judges sd nd (m + xs.length) ys
  | [], ys, m => by simp [runSchedule]
  | x :: xs, ys, m => by
    have hrec := runSchedule_append cfg judges sd nd xs ys (m + 1)
    have hlen : m + (x :: xs).length = m + 1 + xs.length := by
      simp only [List.length_cons]
      omega
    simp only [List.cons_append, runSchedule, List.append_eq, hrec, hlen,
      List.append_assoc]

theorem mem_runSchedule_caseId (cfg : HearingScheduler) (judges : List JudgeRow)
    (sd nd : Nat) :
    ∀ (cs : List CaseRow) (m : Nat) (a : Assignment),
      a ∈ runSchedule cfg judges sd nd m cs → ∃ c ∈ cs, a.case_id = c.case_id
  | [], m, a, h => by simp [runSchedule] at h
  | c :: cs, m, a, h => by
    simp only [runSchedule, List.mem_append] at h
    rcases h with h | h
    · cases hslot : findSlot cfg (countersAt cfg judges sd nd m) judges sd
          (List.range nd) with
      | none => simp [assignOf, hslot] at h
      | some dj =>
        obtain ⟨d, j⟩ := dj
        simp only [assignOf, hslot, Option.toList_some, List.mem_singleton] at h
        subst h
        exact ⟨c, List.mem_cons_self c cs, rfl⟩
    · rcases mem_runSchedule_caseId cfg judges sd nd cs (m + 1) a h with ⟨c0, hc0, hid⟩
      exact ⟨c0, List.mem_cons_of_mem c hc0, hid⟩

theorem countersLE_refl (s : Counters) : CountersLE s s :=
  ⟨fun _ => le_refl _, fun _ => le_refl _⟩

theorem countersLE_trans {s t u : Counters} (h1 : CountersLE s t) (h2 : CountersLE t u) :
    CountersLE s u :=
  ⟨fun d => (h1.1 d).trans (h2.1 d), fun k => (h1.2 k).trans (h2.2 k)⟩

theorem countersLE_bump (s : Counters) (d : Nat) (j : JudgeRow) :
    CountersLE s (bumpCounters s d j) := by
  constructor
  · intro d2
    simp only [bumpCounters]
    by_cases h : d2 = d
    · subst h; rw [if_pos rfl]; omega
    · rw [if_neg h]
  · intro k
    simp only [bumpCounters]
    by_cases h : k = (j.judge_id, d)
    · subst h; rw [if_pos rfl]; omega
    · rw [if_neg h]

theorem countersLE_step (cfg : HearingScheduler) (judges : List JudgeRow)
    (sd nd : Nat) (s : Counters) :
    CountersLE s (stepCounters cfg judges sd nd s) := by
  cases hslot : findSlot cfg s judges sd (List.range nd) with
  | none => simp only [stepCounters, hslot]; exact countersLE_refl s
  | some dj =>
    obtain ⟨d, j⟩ := dj
    simp only [stepCounters, hslot]
    exact countersLE_bump s d j

theorem countersAt_le (cfg : HearingScheduler) (judges : List JudgeRow)
    (sd nd : Nat) {m n : Nat} (h : m ≤ n) :
    CountersLE (countersAt cfg judges sd nd m) (countersAt cfg judges sd nd n) := by
  induction n with
  | zero =>
    have : m = 0 := Nat.le_zero.mp h
    subst this
    exact countersLE_refl _
  | succ n ih =>
    rcases Nat.lt_or_ge m (n + 1) with hlt | hge
    · have hmn : m ≤ n := Nat.lt_succ_iff.mp hlt
      refine countersLE_trans (ih hmn) ?_
      have hstep : countersAt cfg judges sd nd (n + 1)
          = stepCounters cfg judges sd nd (countersAt cfg judges sd nd n) :=
        Function.iterate_succ_apply' (stepCounters cfg judges sd nd) n initCounters
      rw [hstep]
      exact countersLE_step cfg judges sd nd _
    · have : m = n + 1 := le_antisymm h hge
      subst this
      exact countersLE_refl _

theorem findJudge_none_mono {cfg : HearingScheduler} {s t : Nat × Nat → Nat}
    {date : Nat} (hle : ∀ k, s k ≤ t k) :
    ∀ {js : List JudgeRow}, findJudge cfg s date js = none →
      findJudge cfg t date js = none := by
  intro js
  induction js with
  | nil => intro _; rfl
  | cons j rest ih =>
    intro h
    by_cases hj : s (j.judge_id, date) < cfg.max_hearings_per_judge
    · simp [findJudge, hj] at h
    · simp only [findJudge, if_neg hj] at h
      have htj : ¬ t (j.judge_id, date) < cfg.max_hearings_per_judge := by
        have := hle (j.judge_id, date)
        omega
      simp only [findJudge, if_neg htj]
      exact ih h

theorem findSlot_mono {cfg : HearingScheduler} {judges : List JudgeRow} {sd : Nat}
    {s t : Counters} (hle : CountersLE s t) :
    ∀ {offs : List Nat}, offs.Pairwise (· ≤ ·) →
      ∀ {d2 : Nat} {j2 : JudgeRow}, findSlot cfg t judges sd offs = some (d2, j2) →
        ∃ d1 j1, findSlot cfg s judges sd offs = some (d1, j1) ∧ d1 ≤ d2 := by
  intro offs
  induction offs with
  | nil => intro _ d2 j2 h; simp [findSlot] at h
  | cons o rest ih =>
    intro hpw d2 j2 h
    rcases List.pairwise_cons.mp hpw with ⟨ho, hrest⟩
    by_cases hw : (sd + o) % 7 ≥ 5
    · simp only [findSlot, if_pos hw] at h ⊢
      exact ih hrest h
    · by_cases hfs : s.daily (sd + o) ≥ cfg.max_hearings_per_day
      · have hft : t.daily (sd + o) ≥ cfg.max_hearings_per_day := by
          have := hle.1 (sd + o)
          omega
        simp only [findSlot, if_neg hw, if_pos hfs, if_pos hft] at h ⊢
        exact ih hrest h
      · cases hjs : findJudge cfg s.judgeDaily (sd + o) judges with
        | some j1 =>
          refine ⟨sd + o, j1, ?_, ?_⟩
          · simp only [findSlot, if_neg hw, if_neg hfs, hjs]
          · rcases (findSlot_some h).2.2.2 with ⟨off, hoff, hd2⟩
            subst hd2
            rcases List.mem_cons.mp hoff with rfl | hoff2
            · exact le_refl _
            · exact Nat.add_le_add_left (ho off hoff2) sd
        | none =>
          have hjt : findJudge cfg t.judgeDaily (sd + o) judges = none :=
            findJudge_none_mono hle.2 hjs
          by_cases hft : t.daily (sd + o) ≥ cfg.max_hearings_per_day
          · simp only [findSlot, if_neg hw, if_neg hfs, if_pos hft, hjs] at h ⊢
            exact ih hrest h
          · simp only [findSlot, if_neg hw, if_neg hfs, if_neg hft, hjs, hjt] at h ⊢
            exact ih hrest h

theorem countP_and_split {α} (P Q : α → Bool) (l : List α) :
    l.countP P = l.countP (fun x => P x && Q x) + l.countP (fun x => P x && !Q x) := by
  induction l with
  | nil => simp
  | cons a t ih =>
    simp only [List.countP_cons]
    cases hP : P a <;> cases hQ : Q a <;> simp [hP, hQ] <;> omega

theorem append_cons_left_inj {α} {a : α} :
    ∀ {xs : List α} {us ys vs : List α}, xs ++ a :: ys = us ++ a :: vs →
      a ∉ xs → a ∉ us → xs = us := by
  intro xs
  induction xs with
  | nil =>
    intro us ys vs h hx hu
    cases us with
    | nil => rfl
    | cons u ut =>
      simp only [List.nil_append, List.cons_append, List.cons.injEq] at h
      exact absurd (by rw [h.1]; exact List.mem_cons_self u ut) hu
  | cons x xt ih =>
    intro us ys vs h hx hu
    cases us with
    | nil =>
      simp only [List.cons_append, List.nil_append, List.cons.injEq] at h
      exact absurd (by rw [← h.1]; exact List.mem_cons_self x xt) hx
    | cons u ut =>
      simp only [List.cons_append, List.cons.injEq] at h
      rcases h with ⟨hxu, ht⟩
      subst hxu
      rw [ih ht (fun hmem => hx (List.mem_cons_of_mem x hmem))
        (fun hmem => hu (List.mem_cons_of_mem x hmem))]

theorem length_countP_trichotomy (c : CaseRow) (l : List CaseRow) :
    l.length
      = l.countP (fun x => decide (c.priority_score < x.priority_score))
        + l.countP (fun x => x.priority_score == c.priority_score)
        + l.countP (fun x => decide (x.priority_score < c.priority_score)) := by
  induction l with
  | nil => simp
  | cons a t ih =>
    simp only [List.countP_cons, List.length_cons]
    rcases lt_trichotomy c.priority_score a.priority_score with h | h | h
    · have h2 : ¬ a.priority_score = c.priority_score := by omega
      have h3 : ¬ a.priority_score < c.priority_score := by omega
      simp [h, h2, h3]
      omega
    · have h1 : ¬ c.priority_score < a.priority_score := by omega
      have h3 : ¬ a.priority_score < c.priority_score := by omega
      simp [h1, h3, h.symm]
      omega
    · have h1 : ¬ c.priority_score < a.priority_score := by omega
      have h2 : ¬ a.priority_score = c.priority_score := by omega
      simp [h1, h2, h]
      omega

/-- The number of cases the heuristic processes before `c`: the prefix length of the
descending processing order ahead of `c` equals the number of strictly higher
priority cases plus the number of equal-priority cases that FOLLOW `c` in the input
(ties are reversed by the sort). -/
theorem sortDesc_rank {pre post : List CaseRow} {c : CaseRow} {A B : List CaseRow}
    (hfresh : ∀ x ∈ pre ++ post, x.case_id ≠ c.case_id)
    (hsplit : sortByPriorityDesc (pre ++ c :: post) = A ++ c :: B) :
    A.length
      = (pre ++ post).countP (fun x => decide (c.priority_score < x.priority_score))
        + post.countP (fun x => x.priority_score == c.priority_score) := by
  have hcpre : c ∉ pre := fun hc => hfresh c (List.mem_append_left post hc) rfl
  have hcpost : c ∉ post := fun hc => hfresh c (List.mem_append_right pre hc) rfl
  have hperm : (A ++ c :: B).Perm (pre ++ c :: post) := by
    rw [← hsplit]; exact sortByPriorityDesc_perm (pre ++ c :: post)
  have hpw : (A ++ c :: B).Pairwise (fun a b => b.priority_score ≤ a.priority_score) := by
    rw [← hsplit]; exact sortByPriorityDesc_sorted (pre ++ c :: post)
  rcases List.pairwise_append.mp hpw with ⟨hpwA, hpwCB, hAcb⟩
  have hAc : ∀ a ∈ A, c.priority_score ≤ a.priority_score :=
    fun a ha => hAcb a ha c (List.mem_cons_self c B)
  have hBc : ∀ b ∈ B, b.priority_score ≤ c.priority_score := by
    intro b hb
    exact (List.pairwise_cons.mp hpwCB).1 b hb
  have hcount : (A ++ c :: B).count c = 1 := by
    rw [hperm.count_eq]
    rw [List.count_append, List.count_cons]
    rw [List.count_eq_zero.mpr hcpre, List.count_eq_zero.mpr hcpost]
    simp
  have hcountA : A.count c = 0 ∧ B.count c = 0 := by
    rw [List.count_append, List.count_cons] at hcount
    simp only [beq_self_eq_true, if_true] at hcount
    constructor <;> omega
  have hcA : c ∉ A := List.count_eq_zero.mp hcountA.1
  have hgt : A.countP (fun x => decide (c.priority_score < x.priority_score))
      = (pre ++ post).countP (fun x => decide (c.priority_score < x.priority_score)) := by
    have hz : (c :: B).countP (fun x => decide (c.priority_score < x.priority_score)) = 0 := by
      apply List.countP_eq_zero.mpr
      intro b hb
      rcases List.mem_cons.mp hb with rfl | hb2
      · simp
      · have := hBc b hb2
        simp only [decide_eq_true_eq]
        omega
    have := hperm.countP_eq (fun x => decide (c.priority_score < x.priority_score))
    rw [List.countP_append, hz] at this
    rw [List.countP_append] at this ⊢
    have hzc : (c :: post).countP (fun x => decide (c.priority_score < x.priority_score))
        = post.countP (fun x => decide (c.priority_score < x.priority_score)) := by
      simp [List.countP_cons]
    rw [hzc] at this
    omega
  have heqt : A.countP (fun x => x.priority_score == c.priority_score)
      = post.countP (fun x => x.priority_score == c.priority_score) := by
    have hfil : (A ++ c :: B).filter (fun x => x.priority_score == c.priority_score)
        = ((pre ++ c :: post).filter
            (fun x => x.priority_score == c.priority_score)).reverse := by
      rw [← hsplit]
      exact filter_sortByPriorityDesc (pre ++ c :: post) c.priority_score
    rw [List.filter_append, List.filter_cons] at hfil
    simp only [beq_self_eq_true, if_true] at hfil
    rw [List.filter_append, List.filter_cons] at hfil
    simp only [beq_self_eq_true, if_true] at hfil
    rw [List.reverse_append, List.reverse_cons, List.append_assoc] at hfil
    simp only [List.singleton_append] at hfil
    have hAeq := append_cons_left_inj hfil
      (fun hmem => hcA (List.mem_of_mem_filter hmem))
      (fun hmem => hcpost (List.mem_of_mem_filter (List.mem_reverse.mp hmem)))
    rw [List.countP_eq_length_filter, List.countP_eq_length_filter, hAeq,
      List.length_reverse]
  have hlt : A.countP (fun x => decide (x.priority_score < c.priority_score)) = 0 := by
    apply List.countP_eq_zero.mpr
    intro a ha
    have := hAc a ha
    simp only [decide_eq_true_eq]
    omega
  have := length_countP_trichotomy c A
  omega

theorem rank_le_of_priority_raise (pre post : List CaseRow) {p q : Int} (hpq : p < q) :
    (pre ++ post).countP (fun x => decide (q < x.priority_score))
        + post.countP (fun x => x.priority_score == q)
      ≤ (pre ++ post).countP (fun x => decide (p < x.priority_score))
        + post.countP (fun x => x.priority_score == p) := by
  have hsplit := countP_and_split (fun x : CaseRow => decide (p < x.priority_score))
    (fun x : CaseRow => decide (q < x.priority_score)) (pre ++ post)
  have h1 : (pre ++ post).countP
      (fun x => decide (p < x.priority_score) && decide (q < x.priority_score))
      = (pre ++ post).countP (fun x => decide (q < x.priority_score)) := by
    apply List.countP_congr
    intro x _
    constructor
    · intro h
      simp only [Bool.and_eq_true] at h
      exact h.2
    · intro h
      simp only [decide_eq_true_eq] at h
      simp only [Bool.and_eq_true, decide_eq_true_eq]
      omega
  have h2 : post.countP (fun x => x.priority_score == q)
      ≤ (pre ++ post).countP
        (fun x => decide (p < x.priority_score) && !decide (q < x.priority_score)) := by
    have hmono : post.countP (fun x => x.priority_score == q)
        ≤ post.countP
          (fun x => decide (p < x.priority_score) && !decide (q < x.priority_score)) := by
      apply List.countP_mono_left
      intro x _ hx
      simp only [beq_iff_eq] at hx
      simp only [Bool.and_eq_true, Bool.not_eq_true', decide_eq_true_eq,
        decide_eq_false_iff_not]
      omega
    have happ : (pre ++ post).countP
        (fun x => decide (p < x.priority_score) && !decide (q < x.priority_score))
        = pre.countP (fun x => decide (p < x.priority_score) && !decide (q < x.priority_score))
          + post.countP
            (fun x => decide (p < x.priority_score) && !decide (q < x.priority_score)) :=
      List.countP_append _ pre post
    omega
  omega

theorem sortDesc_split_not_mem {pre post : List CaseRow} {c : CaseRow}
    {A B : List CaseRow}
    (hfresh : ∀ x ∈ pre ++ post, x.case_id ≠ c.case_id)
    (hsplit : sortByPriorityDesc (pre ++ c :: post) = A ++ c :: B) :
    c ∉ A ∧ c ∉ B := by
  have hcpre : c ∉ pre := fun hc => hfresh c (List.mem_append_left post hc) rfl
  have hcpost : c ∉ post := fun hc => hfresh c (List.mem_append_right pre hc) rfl
  have hperm : (A ++ c :: B).Perm (pre ++ c :: post) := by
    rw [← hsplit]; exact sortByPriorityDesc_perm (pre ++ c :: post)
  have hcount : (A ++ c :: B).count c = 1 := by
    rw [hperm.count_eq]
    rw [List.count_append, List.count_cons]
    rw [List.count_eq_zero.mpr hcpre, List.count_eq_zero.mpr hcpost]
    simp
  rw [List.count_append, List.count_cons] at hcount
  simp only [beq_self_eq_true, if_true] at hcount
  constructor
  · exact List.count_eq_zero.mp (by omega)
  · exact List.count_eq_zero.mp (by omega)

/-- Raising one case's priority score (everything else fixed) never moves that case
to a later hearing date under the heuristic. -/
theorem heuristic_priority_monotone (cfg : HearingScheduler) (pre post : List CaseRow)
    (c : CaseRow) (q : Int) (judges : List JudgeRow) (sd nd : Nat)
    (hq : c.priority_score < q)
    (hfresh : ∀ x ∈ pre ++ post, x.case_id ≠ c.case_id)
    (a : Assignment)
    (ha : a ∈ (schedule_hearings_heuristic cfg (pre ++ c :: post) judges sd nd).schedule)
    (haid : a.case_id = c.case_id) :
    ∃ a2 ∈ (schedule_hearings_heuristic cfg
        (pre ++ { c with priority_score := q } :: post) judges sd nd).schedule,
      a2.case_id = c.case_id ∧ a2.hearing_date ≤ a.hearing_date := by
  have hcmem : c ∈ sortByPriorityDesc (pre ++ c :: post) :=
    (sortByPriorityDesc_perm (pre ++ c :: post)).mem_iff.mpr
      (List.mem_append_right pre (List.mem_cons_self c post))
  rcases List.append_of_mem hcmem with ⟨A, B, hsplit⟩
  rcases sortDesc_split_not_mem hfresh hsplit with ⟨hcA, hcB⟩
  rw [heuristic_schedule_eq, hsplit, runSchedule_append] at ha
  simp only [Nat.zero_add, List.mem_append] at ha
  have hnotA : a ∉ runSchedule cfg judges sd nd 0 A := by
    intro hmem
    rcases mem_runSchedule_caseId cfg judges sd nd A 0 a hmem with ⟨c0, hc0A, hid⟩
    have hc0l : c0 ∈ pre ++ c :: post :=
      (sortByPriorityDesc_perm (pre ++ c :: post)).subset
        (by rw [hsplit]; exact List.mem_append_left _ hc0A)
    have hc0ne : c0 ≠ c := fun he => hcA (he ▸ hc0A)
    rcases List.mem_append.mp hc0l with h1 | h1
    · exact hfresh c0 (List.mem_append_left post h1) (by rw [← hid, haid])
    · rcases List.mem_cons.mp h1 with rfl | h2
      · exact hc0ne rfl
      · exact hfresh c0 (List.mem_append_right pre h2) (by rw [← hid, haid])
  have hmid : a ∈ runSchedule cfg judges sd nd A.length (c :: B) := by
    rcases ha with h | h
    · exact absurd h hnotA
    · exact h
  simp only [runSchedule, List.mem_append] at hmid
  have hslotA : assignOf cfg judges sd nd
      (countersAt cfg judges sd nd A.length) c = some a := by
    rcases hmid with h | h
    · cases hass : assignOf cfg judges sd nd (countersAt cfg judges sd nd A.length) c with
      | none => rw [hass] at h; simp at h
      | some a0 =>
        rw [hass] at h
        simp only [Option.toList_some, List.mem_singleton] at h
        rw [h]
    · exfalso
      rcases mem_runSchedule_caseId cfg judges sd nd B (A.length + 1) a h with ⟨c0, hc0B, hid⟩
      have hc0l : c0 ∈ pre ++ c :: post :=
        (sortByPriorityDesc_perm (pre ++ c :: post)).subset
          (by rw [hsplit]
              exact List.mem_append_right _ (List.mem_cons_of_mem c hc0B))
      have hc0ne : c0 ≠ c := fun he => hcB (he ▸ hc0B)
      rcases List.mem_append.mp hc0l with h1 | h1
      · exact hfresh c0 (List.mem_append_left post h1) (by rw [← hid, haid])
      · rcases List.mem_cons.mp h1 with rfl | h2
        · exact hc0ne rfl
        · exact hfresh c0 (List.mem_append_right pre h2) (by rw [← hid, haid])
  rcases hfs : findSlot cfg (countersAt cfg judges sd nd A.length) judges sd
      (List.range nd) with _ | ⟨d, j⟩
  · rw [assignOf, hfs] at hslotA; simp at hslotA
  · rw [assignOf, hfs] at hslotA
    simp only [Option.some.injEq] at hslotA
    have hadate : a.hearing_date = d := by rw [← hslotA]; rfl
    have hc2mem : { c with priority_score := q }
        ∈ sortByPriorityDesc (pre ++ { c with priority_score := q } :: post) :=
      (sortByPriorityDesc_perm _).mem_iff.mpr
        (List.mem_append_right pre (List.mem_cons_self _ post))
    rcases List.append_of_mem hc2mem with ⟨A2, B2, hsplit2⟩
    have hfresh2 : ∀ x ∈ pre ++ post,
        x.case_id ≠ ({ c with priority_score := q } : CaseRow).case_id := hfresh
    have hrank := sortDesc_rank hfresh hsplit
    have hrank2 := sortDesc_rank hfresh2 hsplit2
    have hlen : A2.length ≤ A.length := by
      rw [hrank, hrank2]
      exact rank_le_of_priority_raise pre post hq
    have hcle := countersAt_le cfg judges sd nd hlen
    have hpw : (List.range nd).Pairwise (· ≤ ·) :=
      (List.pairwise_lt_range nd).imp (fun h => le_of_lt h)
    rcases findSlot_mono hcle hpw hfs with ⟨d1, j1, hfs1, hd1⟩
    refine ⟨mkAssignment cfg { c with priority_score := q } j1 d1, ?_, rfl, ?_⟩
    · rw [heuristic_schedule_eq, hsplit2, runSchedule_append]
      simp only [Nat.zero_add, List.mem_append]
      right
      simp only [runSchedule, List.mem_append]
      left
      rw [assignOf, hfs1]
      simp
    · rw [hadate]
      exact hd1


theorem countId_foldl (cfg : HearingScheduler) (judges : List JudgeRow) (sd nd : Nat) :
    ∀ (cs : List CaseRow) (st : SchedState) (i : Nat),
      countId (List.foldl (scheduleCase cfg judges sd nd) st cs).schedule i
        ≤ countId st.schedule i + cs.countP (fun c => c.case_id == i)
  | [], st, i => by simp [List.countP_nil]
  | c :: cs, st, i => by
    have hrec := countId_foldl cfg judges sd nd cs (scheduleCase cfg judges sd nd st c) i
    have hstep : countId (scheduleCase cfg judges sd nd st c).schedule i
        ≤ countId st.schedule i + if c.case_id == i then 1 else 0 := by
      cases hslot : findSlot cfg st.counters judges sd (List.range nd) with
      | none => simp [scheduleCase, hslot]
      | some dj =>
        obtain ⟨d, j⟩ := dj
        simp only [scheduleCase, hslot, countId, countP_append_singleton, mkAssignment]
        exact le_refl _
    simp only [List.foldl_cons, List.countP_cons]
    by_cases hc : c.case_id == i
    · simp only [hc, if_true] at hstep ⊢
      omega
    · simp only [hc, Bool.false_eq_true, if_false] at hstep ⊢
      omega

theorem nodup_countP_le_one {l : List CaseRow} (i : Nat)
    (h : (l.map (fun c => c.case_id)).Nodup) :
    l.countP (fun c => c.case_id == i) ≤ 1 := by
  induction l with
  | nil => simp
  | cons c t ih =>
    simp only [List.map_cons, List.nodup_cons] at h
    rcases h with ⟨hnotin, hnd⟩
    simp only [List.countP_cons]
    by_cases hc : c.case_id = i
    · have hz : t.countP (fun c2 => c2.case_id == i) = 0 := by
        apply List.countP_eq_zero.mpr
        intro x hx hxi
        have hxi2 : x.case_id = i := by simpa using hxi
        exact hnotin (List.mem_map.mpr ⟨x, hx, by rw [hxi2, hc]⟩)
      simp [hc, hz]
    · have hcb : (c.case_id == i) = false := by simpa using hc
      have ht := ih hnd
      simp only [hcb, Bool.false_eq_true, if_false]
      omega

/-- The heuristic half of the at-most-once property, for inputs whose case ids are
pairwise distinct. -/
theorem heuristic_countId_le_one (cfg : HearingScheduler) (cases : List CaseRow)
    (judges : List JudgeRow) (sd nd : Nat) (i : Nat)
    (hnd : (cases.map (fun c => c.case_id)).Nodup) :
    countId (schedule_hearings_heuristic cfg cases judges sd nd).schedule i ≤ 1 := by
  have hfold := countId_foldl cfg judges sd nd (sortByPriorityDesc cases)
    { counters := initCounters, schedule := [], warnings := [] } i
  have hperm : (sortByPriorityDesc cases).countP (fun c => c.case_id == i)
      = cases.countP (fun c => c.case_id == i) :=
    (sortByPriorityDesc_perm cases).countP_eq _
  have hle := nodup_countP_le_one i hnd
  simp only [countId, List.countP_nil] at hfold
  rw [hperm] at hfold
  calc countId (schedule_hearings_heuristic cfg cases judges sd nd).schedule i
      ≤ 0 + cases.countP (fun c => c.case_id == i) := hfold
    _ ≤ 1 := by omega

theorem filterMap_if_eq_map_filter {α β} (P : α → Bool) (f : α → β) (l : List α) :
    l.filterMap (fun d => if P d then some (f d) else none) = (l.filter P).map f := by
  induction l with
  | nil => rfl
  | cons a t ih =>
    by_cases h : P a <;> simp [List.filterMap_cons, List.filter_cons, h, ih]

theorem countP_map_const {α β} (f : α → β) (p : β → Bool) (l : List α)
    (b : Bool) (hb : ∀ x, p (f x) = b) :
    (l.map f).countP p = if b then l.length else 0 := by
  induction l with
  | nil => cases b <;> simp
  | cons a t ih =>
    cases hbv : b <;> subst hbv <;>
      simp [List.countP_cons, hb, ih]

theorem countId_extractJudgeRows (cfg : HearingScheduler) (cr : CaseRow)
    (value : Nat → Nat → Nat → Bool) (sd nd c i : Nat) :
    ∀ (jFrom : Nat) (js : List JudgeRow),
      countId (extractJudgeRows cfg value sd nd c cr jFrom js) i
        = if cr.case_id == i then totalAssign value nd c jFrom js else 0
  | jFrom, [] => by
    cases hc : cr.case_id == i <;> simp [extractJudgeRows, countId, hc, totalAssign]
  | jFrom, j :: js => by
    have hrec := countId_extractJudgeRows cfg cr value sd nd c i (jFrom + 1) js
    have hblock : countId ((List.range nd).filterMap (fun d =>
        if value c jFrom d then some (mkAssignment cfg cr j (sd + d)) else none)) i
        = if cr.case_id == i then dayHits value nd c jFrom else 0 := by
      rw [filterMap_if_eq_map_filter (fun d => value c jFrom d)
        (fun d => mkAssignment cfg cr j (sd + d)) (List.range nd)]
      rw [countId, countP_map_const (fun d => mkAssignment cfg cr j (sd + d))
        (fun a => a.case_id == i)
        (List.filter (fun d => value c jFrom d) (List.range nd))
        (cr.case_id == i) (fun x => rfl)]
      rfl
    simp only [extractJudgeRows, totalAssign, countId, List.countP_append]
    simp only [countId] at hrec hblock
    cases hc : cr.case_id == i <;> simp only [hc] at hrec hblock ⊢ <;>
      simp [hrec, hblock]

theorem countId_extractRows (cfg : HearingScheduler) (judges : List JudgeRow)
    (value : Nat → Nat → Nat → Bool) (sd nd i : Nat) :
    ∀ (cs : List CaseRow) (c0 : Nat),
      (∀ k, k < cs.length → totalAssign value nd (c0 + k) 0 judges = 1) →
      countId (extractRows cfg value judges sd nd c0 cs) i
        = cs.countP (fun cr => cr.case_id == i)
  | [], c0, _ => by simp [extractRows, countId]
  | cr :: cs, c0, hone => by
    have hhead : totalAssign value nd c0 0 judges = 1 := by
      have := hone 0 (by simp)
      simpa using this
    have hrec := countId_extractRows cfg judges value sd nd i cs (c0 + 1)
      (fun k hk => by
        have := hone (k + 1) (by simpa using Nat.succ_lt_succ hk)
        have harith : c0 + (k + 1) = c0 + 1 + k := by omega
        rw [harith] at this
        exact this)
    have hblock := countId_extractJudgeRows cfg cr value sd nd c0 i 0 judges
    simp only [extractRows, countId, List.countP_append, List.countP_cons]
    simp only [countId] at hrec hblock
    cases hc : cr.case_id == i <;> simp only [hc] at hblock ⊢ <;>
      simp [hrec, hblock, hhead] <;> omega

/-- The extracted optimized schedule contains each case id at most once, provided
each case is assigned exactly one (judge, day) slot (the solver's Constraint 1)
and the input case ids are pairwise distinct. -/
theorem extract_countId_le_one (cfg : HearingScheduler) (cases : List CaseRow)
    (judges : List JudgeRow) (sd nd : Nat)
    (value : Nat → Nat → Nat → Bool) (i : Nat)
    (hnd : (cases.map (fun c => c.case_id)).Nodup)
    (hone : ∀ k, k < cases.length → totalAssign value nd k 0 judges = 1) :
    countId (extractSchedule cfg cases judges sd nd value) i ≤ 1 := by
  rw [extractSchedule, countId_extractRows cfg judges value sd nd i cases 0
    (fun k hk => by simpa using hone k hk)]
  exact nodup_countP_le_one i hnd

theorem findSlot_no_judges (cfg : HearingScheduler) (s : Counters) (sd : Nat) :
    ∀ offs : List Nat, findSlot cfg s [] sd offs = none
  | [] => rfl
  | o :: rest => by
    by_cases hw : (sd + o) % 7 ≥ 5
    · simp [findSlot, hw, findSlot_no_judges cfg s sd rest]
    · by_cases hf : s.daily (sd + o) ≥ cfg.max_hearings_per_day <;>
        simp [findSlot, hw, hf, findJudge, findSlot_no_judges cfg s sd rest]

theorem foldl_no_judges (cfg : HearingScheduler) (sd nd : Nat) :
    ∀ (cs : List CaseRow) (st : SchedState),
      List.foldl (scheduleCase cfg [] sd nd) st cs
        = { st with warnings := st.warnings ++ cs.map warnMsg }
  | [], st => by simp
  | c :: cs, st => by
    have hslot := findSlot_no_judges cfg st.counters sd (List.range nd)
    simp only [List.foldl_cons, scheduleCase, hslot]
    rw [foldl_no_judges cfg sd nd cs]
    simp

/-- With an empty judge table the heuristic schedules nothing, warns about every
case (in processing order) and terminates normally. -/
theorem heuristic_no_judges (cfg : HearingScheduler) (cases : List CaseRow)
    (sd nd : Nat) :
    (schedule_hearings_heuristic cfg cases [] sd nd).schedule = []
      ∧ (schedule_hearings_heuristic cfg cases [] sd nd).warnings
        = (sortByPriorityDesc cases).map warnMsg := by
  rw [schedule_hearings_heuristic, foldl_no_judges cfg sd nd (sortByPriorityDesc cases)]
  simp

theorem validateMaxPerDay_ok (f : ScheduleFrame) (v : Nat)
    (hne : f.rows ≠ []) (hbound : ∀ d, countD f.rows d ≤ v) :
    validateMaxPerDay f v = Except.ok [] := by
  rw [validateMaxPerDay, if_neg (by simpa using hne)]
  congr 1
  apply List.filterMap_eq_nil_iff.mpr
  intro g hg
  rcases List.mem_map.mp hg with ⟨d, _, hgd⟩
  rw [← hgd]
  simp only
  rw [if_neg]
  intro hcontra
  exact absurd (hbound d) (by omega)

theorem validateMaxPerJudge_ok (f : ScheduleFrame) (v : Nat)
    (hne : f.rows ≠ []) (hbound : ∀ jid d, countJD f.rows jid d ≤ v) :
    validateMaxPerJudge f v = Except.ok [] := by
  rw [validateMaxPerJudge, if_neg (by simpa using hne)]
  congr 1
  apply List.filterMap_eq_nil_iff.mpr
  intro g hg
  rcases List.mem_map.mp hg with ⟨k, _, hgk⟩
  rw [← hgk]
  simp only
  rw [if_neg]
  intro hcontra
  exact absurd (hbound k.1 k.2) (by omega)

/-- Validator soundness for the heuristic under matching limits: no violations on
any nonempty heuristic schedule against the two capacity rules used to build it. -/
theorem validate_matching_rules_ok (cfg : HearingScheduler) (cases : List CaseRow)
    (judges : List JudgeRow) (sd nd today : Nat)
    (hne : (schedule_hearings_heuristic cfg cases judges sd nd).schedule ≠ []) :
    validate_schedule
        (add_max_hearings_per_judge
          (add_max_hearings_per_day constraintBuilderInit cfg.max_hearings_per_day)
          cfg.max_hearings_per_judge)
        (heuristic_schedule_df cfg cases judges sd nd) judges today
      = Except.ok (true, []) := by
  rcases heuristic_capacity_bounds cfg cases judges sd nd with ⟨hjd, hd⟩
  have hrules : add_max_hearings_per_judge
      (add_max_hearings_per_day constraintBuilderInit cfg.max_hearings_per_day)
      cfg.max_hearings_per_judge
      = [Constraint.max_hearings_per_day cfg.max_hearings_per_day,
         Constraint.max_hearings_per_judge cfg.max_hearings_per_judge] := rfl
  have hday := validateMaxPerDay_ok (heuristic_schedule_df cfg cases judges sd nd)
    cfg.max_hearings_per_day hne hd
  have hjudge := validateMaxPerJudge_ok (heuristic_schedule_df cfg cases judges sd nd)
    cfg.max_hearings_per_judge hne hjd
  rw [hrules, validate_schedule]
  simp only [collectViolations, violationsFor, hday, hjudge]
  rfl

theorem violationsFor_skipped {r : Constraint} (h : skippedKind r = true)
    (f : ScheduleFrame) (today : Nat) :
    violationsFor r f today = Except.ok [] := by
  cases r <;> first
    | rfl
    | simp [skippedKind] at h

theorem collectViolations_insert_skipped {r : Constraint} (h : skippedKind r = true)
    (f : ScheduleFrame) (today : Nat) :
    ∀ (pre post : List Constraint),
      collectViolations (pre ++ r :: post) f today
        = collectViolations (pre ++ post) f today
  | [], post => by
    simp only [List.nil_append, collectViolations, violationsFor_skipped h]
    cases hpost : collectViolations post f today <;> rfl
  | c :: pre, post => by
    simp only [List.cons_append, collectViolations, List.append_eq]
    rw [collectViolations_insert_skipped h f today pre post]

/-- Claim C1: for every cases list, judges list, start_date and horizon num_days, the
heuristic schedule has at most max_hearings_per_judge assignments for each
(judge_id, date) pair and at most max_hearings_per_day assignments on each date. -/
theorem claim_C1 (cfg : HearingScheduler) (cases : List CaseRow)
    (judges : List JudgeRow) (start_date num_days : Nat) :
    (∀ jid d, countJD
        (schedule_hearings_heuristic cfg cases judges start_date num_days).schedule jid d
        ≤ cfg.max_hearings_per_judge)
    ∧ (∀ d, countD
        (schedule_hearings_heuristic cfg cases judges start_date num_days).schedule d
        ≤ cfg.max_hearings_per_day) :=
  heuristic_capacity_bounds cfg cases judges start_date num_days

/-- Claim C2 counterexample: with two input rows sharing case_id 1 the heuristic
schedules both, so the id appears twice in the assignment list — the claim fails
for inputs with duplicated case ids. -/
theorem claim_C2_counterexample :
    countId (schedule_hearings_heuristic defaultScheduler
        [⟨1, "A", 50⟩, ⟨1, "B", 50⟩] [⟨1, "J"⟩] 0 5).schedule 1 = 2
    ∧ ¬ countId (schedule_hearings_heuristic defaultScheduler
        [⟨1, "A", 50⟩, ⟨1, "B", 50⟩] [⟨1, "J"⟩] 0 5).schedule 1 ≤ 1 :=
  ⟨by decide, by decide⟩

/-- Claim C2 (amended): for every input whose case ids are pairwise distinct, each
case id appears at most once in the heuristic assignment list; and for the optimized
path, any solver solution satisfying the assigned-exactly-once constraint extracts
to a schedule in which each case id appears at most once. -/
theorem claim_C2_amended :
    (∀ (cfg : HearingScheduler) (cases : List CaseRow) (judges : List JudgeRow)
        (sd nd i : Nat), ((cases.map fun c => c.case_id).Nodup) →
        countId (schedule_hearings_heuristic cfg cases judges sd nd).schedule i ≤ 1)
    ∧ (∀ (cfg : HearingScheduler) (cases : List CaseRow) (judges : List JudgeRow)
        (sd nd : Nat) (value : Nat → Nat → Nat → Bool) (i : Nat),
        ((cases.map fun c => c.case_id).Nodup) →
        (∀ k, k < cases.length → totalAssign value nd k 0 judges = 1) →
        countId (extractSchedule cfg cases judges sd nd value) i ≤ 1) :=
  ⟨fun cfg cases judges sd nd i h => heuristic_countId_le_one cfg cases judges sd nd i h,
   fun cfg cases judges sd nd value i h1 h2 =>
     extract_countId_le_one cfg cases judges sd nd value i h1 h2⟩

theorem claim_C2_witness :
    countId (schedule_hearings_heuristic defaultScheduler
        [⟨1, "A", 50⟩, ⟨2, "B", 50⟩] [⟨1, "J"⟩] 0 5).schedule 1 ≤ 1
    ∧ countId (extractSchedule defaultScheduler [⟨1, "A", 50⟩] [⟨1, "J"⟩] 0 1
        (fun c j d => c == 0 && j == 0 && d == 0)) 1 ≤ 1 :=
  ⟨claim_C2_amended.1 defaultScheduler [⟨1, "A", 50⟩, ⟨2, "B", 50⟩] [⟨1, "J"⟩] 0 5 1
      (by decide),
   claim_C2_amended.2 defaultScheduler [⟨1, "A", 50⟩] [⟨1, "J"⟩] 0 1
      (fun c j d => c == 0 && j == 0 && d == 0) 1 (by decide)
      (fun k hk => by
        simp only [List.length_singleton] at hk
        have hk0 : k = 0 := by omega
        subst hk0
        decide)⟩

/-- Claim C3: when the constraint-solver dependency is unavailable, or the status is
neither OPTIMAL nor FEASIBLE, schedule_hearings_optimized returns exactly the
heuristic result on the same arguments (and, being a total function, raises
nothing). -/
theorem claim_C3 (solve : SolveOutcome) (cfg : HearingScheduler)
    (cases : List CaseRow) (judges : List JudgeRow) (sd nd : Nat) :
    (schedule_hearings_optimized false solve cfg cases judges sd nd
      = (schedule_hearings_heuristic cfg cases judges sd nd).schedule)
    ∧ (solve.status ≠ CpStatus.optimal → solve.status ≠ CpStatus.feasible →
      schedule_hearings_optimized true solve cfg cases judges sd nd
        = (schedule_hearings_heuristic cfg cases judges sd nd).schedule) := by
  constructor
  · rfl
  · intro h1 h2
    cases hst : solve.status with
    | optimal => exact absurd hst h1
    | feasible => exact absurd hst h2
    | infeasible => simp [schedule_hearings_optimized, hst]
    | model_invalid => simp [schedule_hearings_optimized, hst]
    | unknown => simp [schedule_hearings_optimized, hst]

theorem claim_C3_witness :
    (schedule_hearings_optimized false ⟨CpStatus.unknown, fun _ _ _ => false⟩
        defaultScheduler [⟨1, "A", 50⟩] [⟨1, "J"⟩] 0 5
      = (schedule_hearings_heuristic defaultScheduler
          [⟨1, "A", 50⟩] [⟨1, "J"⟩] 0 5).schedule)
    ∧ (schedule_hearings_optimized true ⟨CpStatus.infeasible, fun _ _ _ => false⟩
        defaultScheduler [⟨1, "A", 50⟩] [⟨1, "J"⟩] 0 5
      = (schedule_hearings_heuristic defaultScheduler
          [⟨1, "A", 50⟩] [⟨1, "J"⟩] 0 5).schedule) :=
  ⟨(claim_C3 ⟨CpStatus.unknown, fun _ _ _ => false⟩ defaultScheduler
      [⟨1, "A", 50⟩] [⟨1, "J"⟩] 0 5).1,
   (claim_C3 ⟨CpStatus.infeasible, fun _ _ _ => false⟩ defaultScheduler
      [⟨1, "A", 50⟩] [⟨1, "J"⟩] 0 5).2 (by decide) (by decide)⟩

/-- Claim C4 counterexample: an empty case list gives an empty heuristic schedule,
whose DataFrame has no columns, so validating it against the two matching capacity
rules raises KeyError instead of returning (True, []). -/
theorem claim_C4_counterexample :
    validate_schedule
        (add_max_hearings_per_judge
          (add_max_hearings_per_day constraintBuilderInit 20) 15)
        (heuristic_schedule_df defaultScheduler [] [⟨1, "J"⟩] 0 5) [⟨1, "J"⟩] 0
      = Except.error "KeyError: hearing_date"
    ∧ validate_schedule
        (add_max_hearings_per_judge
          (add_max_hearings_per_day constraintBuilderInit 20) 15)
        (heuristic_schedule_df defaultScheduler [] [⟨1, "J"⟩] 0 5) [⟨1, "J"⟩] 0
      ≠ Except.ok (true, []) := by
  constructor
  · rfl
  · intro h
    have herr : validate_schedule
        (add_max_hearings_per_judge
          (add_max_hearings_per_day constraintBuilderInit 20) 15)
        (heuristic_schedule_df defaultScheduler [] [⟨1, "J"⟩] 0 5) [⟨1, "J"⟩] 0
        = Except.error "KeyError: hearing_date" := rfl
    rw [h] at herr
    exact Except.noConfusion herr

/-- Claim C4 (amended): whenever the heuristic schedule is nonempty (so its frame
has columns), validating it against a builder holding exactly the
max_hearings_per_day and max_hearings_per_judge rules with the same limits returns
is_valid = True and no violations. -/
theorem claim_C4_amended (cfg : HearingScheduler) (cases : List CaseRow)
    (judges : List JudgeRow) (sd nd today : Nat)
    (hne : (schedule_hearings_heuristic cfg cases judges sd nd).schedule ≠ []) :
    validate_schedule
        (add_max_hearings_per_judge
          (add_max_hearings_per_day constraintBuilderInit cfg.max_hearings_per_day)
          cfg.max_hearings_per_judge)
        (heuristic_schedule_df cfg cases judges sd nd) judges today
      = Except.ok (true, []) :=
  validate_matching_rules_ok cfg cases judges sd nd today hne

theorem claim_C4_witness :
    validate_schedule
        (add_max_hearings_per_judge
          (add_max_hearings_per_day constraintBuilderInit
            defaultScheduler.max_hearings_per_day)
          defaultScheduler.max_hearings_per_judge)
        (heuristic_schedule_df defaultScheduler [⟨1, "A", 50⟩] [⟨1, "J"⟩] 0 5)
        [⟨1, "J"⟩] 0
      = Except.ok (true, []) :=
  claim_C4_amended defaultScheduler [⟨1, "A", 50⟩] [⟨1, "J"⟩] 0 5 0
    (by
      intro h
      have hlen : (schedule_hearings_heuristic defaultScheduler
          [⟨1, "A", 50⟩] [⟨1, "J"⟩] 0 5).schedule.length = 1 := rfl
      rw [h] at hlen
      exact absurd hlen (by decide))

/-- Claim C5 counterexample: two cases with equal priority_score come out of the
sort, and hence out of the heuristic, in the OPPOSITE of their input order — the
descending sort reverses ties instead of keeping them. -/
theorem claim_C5_counterexample :
    ((sortByPriorityDesc [⟨1, "A", 50⟩, ⟨2, "B", 50⟩]).map fun c => c.case_id)
      = [2, 1]
    ∧ ((schedule_hearings_heuristic defaultScheduler [⟨1, "A", 50⟩, ⟨2, "B", 50⟩]
        [⟨1, "J"⟩] 0 5).schedule.map fun a => a.case_id) = [2, 1]
    ∧ ([2, 1] : List Nat) ≠ [1, 2] :=
  ⟨by decide, by decide, by decide⟩

/-- Claim C5 (amended): the heuristic processes the cases in the order
sortByPriorityDesc, which is nonincreasing in priority_score, and for every fixed
priority value the tied cases appear in the REVERSE of their input order (pandas
sort_values(ascending=False) reverses a stable ascending sort). -/
theorem claim_C5_amended (cfg : HearingScheduler) (cases : List CaseRow)
    (judges : List JudgeRow) (sd nd : Nat) (p : Int) :
    schedule_hearings_heuristic cfg cases judges sd nd
      = List.foldl (scheduleCase cfg judges sd nd)
          { counters := initCounters, schedule := [], warnings := [] }
          (sortByPriorityDesc cases)
    ∧ (sortByPriorityDesc cases).Pairwise
        (fun a b => b.priority_score ≤ a.priority_score)
    ∧ (sortByPriorityDesc cases).filter (fun x => x.priority_score == p)
      = (cases.filter (fun x => x.priority_score == p)).reverse :=
  ⟨rfl, sortByPriorityDesc_sorted cases, filter_sortByPriorityDesc cases p⟩

/-- Claim C6: raising one case's priority_score while holding everything else fixed
never moves that case to a later day: if the original run assigns it some hearing
date, the run with the raised score assigns it a date that is less or equal. -/
theorem claim_C6 (cfg : HearingScheduler) (pre post : List CaseRow) (c : CaseRow)
    (q : Int) (judges : List JudgeRow) (sd nd : Nat)
    (hq : c.priority_score < q)
    (hfresh : ∀ x ∈ pre ++ post, x.case_id ≠ c.case_id)
    (a : Assignment)
    (ha : a ∈ (schedule_hearings_heuristic cfg (pre ++ c :: post) judges sd nd).schedule)
    (haid : a.case_id = c.case_id) :
    ∃ a2 ∈ (schedule_hearings_heuristic cfg
        (pre ++ { c with priority_score := q } :: post) judges sd nd).schedule,
      a2.case_id = c.case_id ∧ a2.hearing_date ≤ a.hearing_date :=
  heuristic_priority_monotone cfg pre post c q judges sd nd hq hfresh a ha haid

theorem claim_C6_witness :
    ∃ a2 ∈ (schedule_hearings_heuristic defaultScheduler
        [⟨1, "A", 70⟩, ⟨2, "B", 60⟩] [⟨1, "J"⟩] 0 5).schedule,
      a2.case_id = 1 ∧ a2.hearing_date ≤ 0 :=
  claim_C6 defaultScheduler [] [⟨2, "B", 60⟩] ⟨1, "A", 50⟩ 70 [⟨1, "J"⟩] 0 5
    (by decide) (by decide)
    (mkAssignment defaultScheduler ⟨1, "A", 50⟩ ⟨1, "J"⟩ 0)
    (by
      have hs : (schedule_hearings_heuristic defaultScheduler
          ([] ++ (⟨1, "A", 50⟩ : CaseRow) :: [⟨2, "B", 60⟩]) [⟨1, "J"⟩] 0 5).schedule
          = [mkAssignment defaultScheduler ⟨2, "B", 60⟩ ⟨1, "J"⟩ 0,
             mkAssignment defaultScheduler ⟨1, "A", 50⟩ ⟨1, "J"⟩ 0] := rfl
      rw [hs]
      exact List.mem_cons_of_mem _ (List.mem_singleton.mpr rfl))
    rfl

/-- Claim C7: an empty case list yields an empty heuristic schedule, and on that
empty (column-less) schedule frame calculate_efficiency raises
KeyError(case_id) at its very first column access instead of returning
coverage_rate = 0 — the code contradicts the zero-safe-default contract. -/
theorem claim_C7 (cfg : HearingScheduler) (seriesStd : List Nat → Rat)
    (judges : List JudgeRow) (sd nd today : Nat) :
    (schedule_hearings_heuristic cfg [] judges sd nd).schedule = []
    ∧ calculate_efficiency seriesStd (heuristic_schedule_df cfg [] judges sd nd)
        [] judges today = Except.error "KeyError: case_id" :=
  ⟨rfl, rfl⟩

/-- Claim C8: with an empty judge list the heuristic returns an empty assignment
list, warns (reports as unscheduled) about every case, and terminates normally. -/
theorem claim_C8 (cfg : HearingScheduler) (cases : List CaseRow) (sd nd : Nat) :
    (schedule_hearings_heuristic cfg cases [] sd nd).schedule = []
    ∧ (schedule_hearings_heuristic cfg cases [] sd nd).warnings
        = (sortByPriorityDesc cases).map warnMsg
    ∧ ∀ c ∈ cases, warnMsg c ∈ (schedule_hearings_heuristic cfg cases [] sd nd).warnings := by
  rcases heuristic_no_judges cfg cases sd nd with ⟨h1, h2⟩
  refine ⟨h1, h2, ?_⟩
  intro c hc
  rw [h2]
  exact List.mem_map_of_mem warnMsg ((sortByPriorityDesc_perm cases).mem_iff.mpr hc)

theorem claim_C8_witness :
    (schedule_hearings_heuristic defaultScheduler
        [⟨1, "A", 50⟩, ⟨2, "B", 40⟩, ⟨3, "C", 30⟩, ⟨4, "D", 20⟩, ⟨5, "E", 10⟩]
        [] 0 30).schedule = []
    ∧ (schedule_hearings_heuristic defaultScheduler
        [⟨1, "A", 50⟩, ⟨2, "B", 40⟩, ⟨3, "C", 30⟩, ⟨4, "D", 20⟩, ⟨5, "E", 10⟩]
        [] 0 30).warnings
      = (sortByPriorityDesc
          [⟨1, "A", 50⟩, ⟨2, "B", 40⟩, ⟨3, "C", 30⟩, ⟨4, "D", 20⟩, ⟨5, "E", 10⟩]).map
          warnMsg
    ∧ ∀ c ∈ ([⟨1, "A", 50⟩, ⟨2, "B", 40⟩, ⟨3, "C", 30⟩, ⟨4, "D", 20⟩,
        ⟨5, "E", 10⟩] : List CaseRow),
        warnMsg c ∈ (schedule_hearings_heuristic defaultScheduler
          [⟨1, "A", 50⟩, ⟨2, "B", 40⟩, ⟨3, "C", 30⟩, ⟨4, "D", 20⟩, ⟨5, "E", 10⟩]
          [] 0 30).warnings :=
  claim_C8 defaultScheduler
    [⟨1, "A", 50⟩, ⟨2, "B", 40⟩, ⟨3, "C", 30⟩, ⟨4, "D", 20⟩, ⟨5, "E", 10⟩] 0 30

/-- Claim C9: the scheduler constructor accepts avg_hearing_duration <= 0 without
any error (no fail-fast), scheduling proceeds and emits assignments with a negative
estimated duration, and the working-hours capacity derivation silently produces the
nonsensical value -12 for avg = -0.5 (while avg = 0 raises an unhandled
ZeroDivisionError, not a configuration error). -/
theorem claim_C9 :
    (hearingSchedulerInit 20 15 6 (-(1/2))).avg_hearing_duration = -(1/2)
    ∧ ((schedule_hearings_heuristic (hearingSchedulerInit 20 15 6 (-(1/2)))
        [⟨1, "A", 50⟩] [⟨1, "J"⟩] 0 5).schedule.map
        fun a => a.estimated_duration_hours) = [-(1/2)]
    ∧ add_working_hours_limit [] 6 (-(1/2))
      = Except.ok [Constraint.working_hours_limit 6 (-(1/2)) (-12)]
    ∧ add_working_hours_limit [] 6 0 = Except.error "ZeroDivisionError" := by
  refine ⟨rfl, rfl, ?_, ?_⟩
  · rw [add_working_hours_limit, if_neg (by norm_num)]
    have h1 : ((6 : Rat) / (-(1/2) : Rat)) = -12 := by norm_num
    rw [h1]
    have h2 : pyIntOfRat (-12) = -12 := by
      rw [pyIntOfRat, if_neg (by norm_num)]
      have h3 : (-(-12) : Rat) = 12 := by norm_num
      rw [h3]
      decide
    rw [h2]
    simp
  · rw [add_working_hours_limit, if_pos rfl]

/-- Claim C10: validate_schedule checks only the five dispatched rule kinds;
inserting a rule of any skipped kind (minimum_gap, judge_specialization,
working_hours_limit, balanced_workload) anywhere in the rule list changes neither
is_valid nor the violation list. -/
theorem claim_C10 (pre post : List Constraint) (r : Constraint) (f : ScheduleFrame)
    (judges : List JudgeRow) (today : Nat) (h : skippedKind r = true) :
    validate_schedule (pre ++ r :: post) f judges today
      = validate_schedule (pre ++ post) f judges today := by
  rw [validate_schedule, validate_schedule,
    collectViolations_insert_skipped h f today pre post]

theorem claim_C10_witness :
    validate_schedule ([Constraint.max_hearings_per_day 20]
        ++ Constraint.balanced_workload (1/4) :: [Constraint.no_weekends])
      (ScheduleFrame.mk []) [] 0
      = validate_schedule
        ([Constraint.max_hearings_per_day 20] ++ [Constraint.no_weekends])
        (ScheduleFrame.mk []) [] 0 :=
  claim_C10 [Constraint.max_hearings_per_day 20] [Constraint.no_weekends]
    (Constraint.balanced_workload (1/4)) (ScheduleFrame.mk []) [] 0 (by decide)
